import Mathlib

set_option maxHeartbeats 1000000

/-!
# Verification of the `bot-analitica` incremental RAG pipeline

Shallow embedding of the core of the repository:

* `src/analyzer.py` — `Analyzer.sanitize_text`, `Analyzer.chunk_text`,
  `Analyzer.process_and_index_files`, `Analyzer._extract_wine_features`,
  `Analyzer._build_wine_metadata`, `Analyzer.ask_bot`;
* `src/vector_store.py` — `VectorStore.get_indexed_files_info`,
  `VectorStore.delete_by_filename`, `VectorStore.add_documents`.

Python strings are modelled as `List Char`, Python dicts as insertion-ordered
association lists (`pyDictInsert` reproduces `d[k] = v`), JSON values as the
inductive `JValue`, and every external effect (OpenAI embeddings and chat
completions, pgvector search, `json.loads`, the weather HTTP call) as a record
of oracle functions returning `Except`/`Option` values, so that the
exception-handling structure of the source is represented explicitly.
-/

namespace BotAnalitica

/-! ## Python dictionary model -/

/-- Python dict assignment `d[k] = v` on an insertion-ordered association list:
the first binding of `k` is replaced in place, otherwise `(k, v)` is appended. -/
def pyDictInsert {β : Type} : List (String × β) → String → β → List (String × β)
  | [], k, v => [(k, v)]
  | (k', v') :: t, k, v =>
    if k' = k then (k, v) :: t else (k', v') :: pyDictInsert t k v

/-- Python `d.get(k)` / `d[k]`: value of the first binding of `k`, if any. -/
def pyGet {β : Type} : List (String × β) → String → Option β
  | [], _ => none
  | (k', v') :: t, k => if k' = k then some v' else pyGet t k

/-- Python `k in d`. -/
def pyHasKey {β : Type} (d : List (String × β)) (k : String) : Bool :=
  (pyGet d k).isSome

/-- Python `d.update(upd)`: insert every binding of `upd` into `d` in order. -/
def pyUpdate {β : Type} (d upd : List (String × β)) : List (String × β) :=
  upd.foldl (fun m kv => pyDictInsert m kv.1 kv.2) d

/-- Keys of an association list, in order. -/
def keysOf {β : Type} (d : List (String × β)) : List String := d.map Prod.fst

@[simp] theorem keysOf_nil {β : Type} : keysOf ([] : List (String × β)) = [] := rfl

@[simp] theorem keysOf_cons {β : Type} (k : String) (v : β) (t : List (String × β)) :
    keysOf ((k, v) :: t) = k :: keysOf t := rfl

theorem pyGet_pyDictInsert_self {β : Type} (d : List (String × β)) (k : String) (v : β) :
    pyGet (pyDictInsert d k v) k = some v := by
  induction d with
  | nil => simp [pyDictInsert, pyGet]
  | cons hd t ih =>
    obtain ⟨k', v'⟩ := hd
    by_cases h : k' = k
    · simp [pyDictInsert, pyGet, h]
    · simp [pyDictInsert, pyGet, h, ih]

theorem pyGet_pyDictInsert_ne {β : Type} (d : List (String × β)) (k k' : String) (v : β)
    (h : k' ≠ k) : pyGet (pyDictInsert d k v) k' = pyGet d k' := by
  have h' : ¬(k = k') := fun hh => h hh.symm
  induction d with
  | nil => simp [pyDictInsert, pyGet, h']
  | cons hd t ih =>
    obtain ⟨k₀, v₀⟩ := hd
    by_cases h₀ : k₀ = k
    · subst h₀
      simp [pyDictInsert, pyGet, h']
    · simp [pyDictInsert, pyGet, h₀, ih]

theorem pyGet_isSome_iff_mem_keys {β : Type} (d : List (String × β)) (k : String) :
    (pyGet d k).isSome ↔ k ∈ keysOf d := by
  induction d with
  | nil => simp [pyGet, keysOf]
  | cons hd t ih =>
    obtain ⟨k', v'⟩ := hd
    by_cases h : k' = k
    · subst h; simp [pyGet]
    · have h' : ¬(k = k') := fun hh => h hh.symm
      simp [pyGet, h, h', ih]

theorem keysOf_pyDictInsert {β : Type} (d : List (String × β)) (k : String) (v : β) :
    keysOf (pyDictInsert d k v) =
      if pyHasKey d k then keysOf d else keysOf d ++ [k] := by
  induction d with
  | nil => simp [pyDictInsert, pyHasKey, pyGet]
  | cons hd t ih =>
    obtain ⟨k', v'⟩ := hd
    by_cases h : k' = k
    · subst h; simp [pyDictInsert, pyHasKey, pyGet]
    · simp only [pyDictInsert, if_neg h, keysOf_cons, ih, pyHasKey, pyGet, if_neg h]
      by_cases h2 : (pyGet t k).isSome <;> simp [h2]

theorem nodup_keysOf_pyDictInsert {β : Type} (d : List (String × β)) (k : String) (v : β)
    (h : (keysOf d).Nodup) : (keysOf (pyDictInsert d k v)).Nodup := by
  rw [keysOf_pyDictInsert]
  by_cases h2 : pyHasKey d k = true
  · simpa [h2] using h
  · have hk : k ∉ keysOf d := by
      intro hmem
      exact h2 (by simpa [pyHasKey] using (pyGet_isSome_iff_mem_keys d k).2 hmem)
    rw [Bool.not_eq_true] at h2
    simp only [h2, Bool.false_eq_true, if_false]
    rw [List.nodup_append]
    refine ⟨h, List.nodup_singleton k, fun a ha hb => ?_⟩
    rw [List.mem_singleton] at hb
    exact hk (hb ▸ ha)

theorem mem_iff_pyGet_of_nodup {β : Type} (d : List (String × β)) (k : String) (v : β)
    (h : (keysOf d).Nodup) : (k, v) ∈ d ↔ pyGet d k = some v := by
  induction d with
  | nil => simp [pyGet]
  | cons hd t ih =>
    obtain ⟨k', v'⟩ := hd
    simp only [keysOf_cons, List.nodup_cons] at h
    by_cases hk : k' = k
    · subst hk
      have hnone : pyGet t k' = none := by
        cases hval : pyGet t k' with
        | none => rfl
        | some w =>
          exact absurd ((pyGet_isSome_iff_mem_keys t k').1 (by simp [hval])) h.1
      constructor
      · intro hmem
        rcases List.mem_cons.1 hmem with heq | hmem2
        · have hv : v = v' := congrArg Prod.snd heq
          simp [pyGet, hv]
        · exact absurd ((pyGet_isSome_iff_mem_keys t k').1
            (by simp [List.mem_map_of_mem Prod.fst hmem2, pyGet_isSome_iff_mem_keys,
              keysOf])) h.1
      · intro hget
        have hv : v' = v := by simpa [pyGet] using hget
        cases hv
        exact List.mem_cons_self _ _
    · have hk' : ¬(k = k') := fun hh => hk hh.symm
      simp [pyGet, hk, hk', ih h.2]

/-! ## JSON values (for the JSONB metadata column and `json.loads` results) -/

/-- A JSON value, as produced by `json.loads` and stored in the `meta_data`
JSONB column of `wine_chunks`. -/
inductive JValue where
  | jnull
  | jbool (b : Bool)
  | jnum (q : ℚ)
  | jstr (s : String)
  | jarr (elems : List JValue)
  | jobj (fields : List (String × JValue))

mutual

/-- Structural equality of JSON values (Python `==` on parsed JSON), used to
model membership in Python `set`s of such values. -/
def JValue.beq : JValue → JValue → Bool
  | .jnull, .jnull => true
  | .jbool a, .jbool b => a == b
  | .jnum a, .jnum b => a == b
  | .jstr a, .jstr b => a == b
  | .jarr a, .jarr b => JValue.beqList a b
  | .jobj a, .jobj b => JValue.beqObj a b
  | _, _ => false

def JValue.beqList : List JValue → List JValue → Bool
  | [], [] => true
  | x :: xs, y :: ys => JValue.beq x y && JValue.beqList xs ys
  | _, _ => false

def JValue.beqObj : List (String × JValue) → List (String × JValue) → Bool
  | [], [] => true
  | (k1, v1) :: xs, (k2, v2) :: ys => k1 == k2 && JValue.beq v1 v2 && JValue.beqObj xs ys
  | _, _ => false

end

/-- SQLAlchemy's `.astext` on a JSON path that is expected to hold a string:
a JSON string yields its text, JSON `null` (or a missing path, handled by the
callers through `Option.bind`) yields SQL `NULL`.  The non-string scalar cases
do not arise for the `documental` fields, which are strings or null by
construction. -/
def JValue.astext : JValue → Option String
  | .jstr s => some s
  | _ => none

/-- Python truthiness of a JSON value (`if res['metadata']:` etc.): `None`,
`False`, `0`, `""`, `[]`, `{}` are falsy. -/
def JValue.pyTruthy : JValue → Bool
  | .jnull => false
  | .jbool b => b
  | .jnum q => q != 0
  | .jstr s => s != ""
  | .jarr es => !es.isEmpty
  | .jobj fs => !fs.isEmpty

/-! ## `Analyzer.sanitize_text` (src/analyzer.py:42-47) -/

/-- The character predicate of `sanitize_text`'s comprehension:
`char == '\n' or char == '\t' or ord(char) >= 32`. -/
def keepChar (c : Char) : Bool :=
  c == '\n' || c == '\t' || decide (32 ≤ c.toNat)

/-- `Analyzer.sanitize_text`: keeps newline, tab and every character of code
point ≥ 32, dropping the rest.  (The `if not text: return ""` guard of the
source is the `[]` case of `filter`.) -/
def sanitize_text (text : List Char) : List Char :=
  text.filter keepChar

/-! ## Python slicing and `Analyzer.chunk_text` (src/analyzer.py:49-57) -/

/-- Normalisation of one Python slice index for a sequence of length `L`:
negative indices count from the end, then the result is clamped to `[0, L]`. -/
def pySliceIdx (L : Nat) (i : Int) : Nat :=
  if i < 0 then ((L : Int) + i).toNat else min i.toNat L

/-- Python slicing `s[a:b]`. -/
def pySlice (s : List Char) (a b : Int) : List Char :=
  (s.take (pySliceIdx s.length b)).drop (pySliceIdx s.length a)

/-- The `while start < len(text)` loop of `chunk_text`, with explicit fuel.
Each iteration appends `text[start : start + chunk_size]` and sets
`start = (start + chunk_size) - overlap`; exhausted fuel with the loop guard
still true is reported as `none` (non-termination of the source loop). -/
def chunkLoop (text : List Char) (chunkSize overlap : Int) :
    Nat → Int → List (List Char) → Option (List (List Char))
  | 0, start, acc =>
    if start < (text.length : Int) then none else some acc.reverse
  | fuel + 1, start, acc =>
    if start < (text.length : Int) then
      chunkLoop text chunkSize overlap fuel (start + chunkSize - overlap)
        (pySlice text start (start + chunkSize) :: acc)
    else some acc.reverse

/-- `Analyzer.chunk_text`.  `text.length + 1` steps of fuel always suffice when
`overlap < chunk_size` (proved below); `none` means the source loop diverges. -/
def chunk_text (text : List Char) (chunkSize : Int := 2000) (overlap : Int := 200) :
    Option (List (List Char)) :=
  chunkLoop text chunkSize overlap (text.length + 1) 0 []

/-- Small sanity instances of the chunker. -/
theorem chunk_text_small_disjoint :
    chunk_text "abcde".data 2 0 = some [['a','b'], ['c','d'], ['e']] := by decide

theorem chunk_text_small_overlapping :
    chunk_text "abcde".data 3 1 = some [['a','b','c'], ['c','d','e'], ['e']] := by
  decide

theorem pySlice_length (s : List Char) (a b : Int) (ha : 0 ≤ a) (hb : 0 ≤ b) :
    (pySlice s a b).length = min b.toNat s.length - min a.toNat s.length := by
  simp only [pySlice, pySliceIdx, not_lt.2 ha, not_lt.2 hb, if_false, List.length_drop,
    List.length_take]
  omega

/-- Full characterisation of the `chunk_text` loop when the stride
`chunk_size - overlap` is positive: with fuel at least `⌈(L - start)/stride⌉`
the loop returns, and the produced windows start at
`start + i * stride`, each spanning `chunk_size` characters clipped to the end
of the text, stopping exactly when the window start reaches the length. -/
theorem chunkLoop_spec (text : List Char) (chunkSize overlap : Int)
    (hstep : 1 ≤ chunkSize - overlap) :
    ∀ (fuel : Nat) (start : Int) (acc : List (List Char)),
      (text.length : Int) - start ≤ (fuel : Int) * (chunkSize - overlap) →
      ∃ tail, chunkLoop text chunkSize overlap fuel start acc = some (acc.reverse ++ tail) ∧
        (∀ i : Nat, i < tail.length ↔ start + (i : Int) * (chunkSize - overlap) < (text.length : Int)) ∧
        (∀ (i : Nat) (h : i < tail.length),
          tail.get ⟨i, h⟩ = pySlice text (start + (i : Int) * (chunkSize - overlap))
            (start + (i : Int) * (chunkSize - overlap) + chunkSize)) := by
  intro fuel
  induction fuel with
  | zero =>
    intro start acc hfuel
    simp only [Nat.cast_zero, zero_mul] at hfuel
    have hge : ¬(start < (text.length : Int)) := by omega
    refine ⟨[], by simp [chunkLoop, hge], fun i => ?_, fun i h => absurd h (by simp)⟩
    have h0 : (0 : Int) ≤ (i : Int) * (chunkSize - overlap) :=
      mul_nonneg (by positivity) (by omega)
    constructor
    · intro hi; exact absurd hi (by simp)
    · intro hi; exact absurd hi (by push_neg; linarith)
  | succ n ih =>
    intro start acc hfuel
    by_cases hlt : start < (text.length : Int)
    · have hmul : ((n : Int) + 1) * (chunkSize - overlap)
          = (n : Int) * (chunkSize - overlap) + (chunkSize - overlap) := by ring
      have hfuel' : (text.length : Int) - (start + chunkSize - overlap)
          ≤ (n : Int) * (chunkSize - overlap) := by
        push_cast at hfuel
        linarith
      obtain ⟨tail, heq, hlen, hget⟩ :=
        ih (start + chunkSize - overlap) (pySlice text start (start + chunkSize) :: acc) hfuel'
      refine ⟨pySlice text start (start + chunkSize) :: tail, ?_, ?_, ?_⟩
      · rw [chunkLoop, if_pos hlt, heq]
        simp
      · intro i
        cases i with
        | zero => simpa using hlt
        | succ j =>
          have harith : start + chunkSize - overlap + (j : Int) * (chunkSize - overlap)
              = start + ((j : Int) + 1) * (chunkSize - overlap) := by ring
          rw [List.length_cons, Nat.succ_lt_succ_iff, hlen j, harith]
          push_cast
          exact Iff.rfl
      · intro i h
        cases i with
        | zero => simp
        | succ j =>
          have harith : start + chunkSize - overlap + (j : Int) * (chunkSize - overlap)
              = start + ((j : Int) + 1) * (chunkSize - overlap) := by ring
          have hj : j < tail.length := Nat.succ_lt_succ_iff.1 (by simpa using h)
          rw [List.get_cons_succ, hget j hj, harith]
          push_cast
          rfl
    · refine ⟨[], by simp [chunkLoop, hlt], fun i => ?_, fun i h => absurd h (by simp)⟩
      have h0 : (0 : Int) ≤ (i : Int) * (chunkSize - overlap) :=
        mul_nonneg (by positivity) (by omega)
      constructor
      · intro hi; exact absurd hi (by simp)
      · intro hi; exact absurd hi (by push_neg; push_neg at hlt; linarith)

/-- When the stride is non-positive the loop guard never becomes false:
the source `while` loop diverges, i.e. every amount of fuel is exhausted. -/
theorem chunkLoop_none_of_stride_nonpos (text : List Char) (chunkSize overlap : Int)
    (hstep : chunkSize - overlap ≤ 0) :
    ∀ (fuel : Nat) (start : Int) (acc : List (List Char)),
      start < (text.length : Int) → chunkLoop text chunkSize overlap fuel start acc = none := by
  intro fuel
  induction fuel with
  | zero => intro start acc h; simp [chunkLoop, h]
  | succ n ih =>
    intro start acc h
    rw [chunkLoop, if_pos h]
    exact ih _ _ (by omega)

/-- `chunk_text` with `overlap < chunk_size`: the windows of the produced
chunks, in closed form. -/
theorem chunk_text_spec (text : List Char) (chunkSize overlap : Int)
    (h : overlap < chunkSize) :
    ∃ cks, chunk_text text chunkSize overlap = some cks ∧
      (∀ i : Nat, i < cks.length ↔ (i : Int) * (chunkSize - overlap) < (text.length : Int)) ∧
      (∀ (i : Nat) (hi : i < cks.length),
        cks.get ⟨i, hi⟩ = pySlice text ((i : Int) * (chunkSize - overlap))
          ((i : Int) * (chunkSize - overlap) + chunkSize)) := by
  have hstep : 1 ≤ chunkSize - overlap := by omega
  have hfuel : (text.length : Int) - 0 ≤ ((text.length + 1 : Nat) : Int) * (chunkSize - overlap) := by
    have h1 : ((text.length : Int) + 1) * 1 ≤ ((text.length : Int) + 1) * (chunkSize - overlap) :=
      mul_le_mul_of_nonneg_left hstep (by positivity)
    push_cast
    linarith
  obtain ⟨tail, heq, hlen, hget⟩ := chunkLoop_spec text chunkSize overlap hstep
    (text.length + 1) 0 [] hfuel
  refine ⟨tail, by simpa [chunk_text] using heq, fun i => ?_, fun i hi => ?_⟩
  · simpa using hlen i
  · simpa using hget i hi

/-! ## `Analyzer._build_wine_metadata` (src/analyzer.py:299-340) -/

theorem pyGet_pyUpdate {β : Type} (upd : List (String × β)) (h : (keysOf upd).Nodup) :
    ∀ (d : List (String × β)) (k : String),
      pyGet (pyUpdate d upd) k =
        match pyGet upd k with
        | some v => some v
        | none => pyGet d k := by
  induction upd with
  | nil => intro d k; simp [pyUpdate, pyGet]
  | cons hd t ih =>
    obtain ⟨k0, v0⟩ := hd
    simp only [keysOf_cons, List.nodup_cons] at h
    intro d k
    have hstep : pyUpdate d ((k0, v0) :: t) = pyUpdate (pyDictInsert d k0 v0) t := rfl
    rw [hstep, ih h.2]
    by_cases hk : k0 = k
    · subst hk
      have hnone : pyGet t k0 = none := by
        cases hval : pyGet t k0 with
        | none => rfl
        | some w =>
          exact absurd ((pyGet_isSome_iff_mem_keys t k0).1 (by simp [hval])) h.1
      simp [hnone, pyGet, pyGet_pyDictInsert_self]
    · have hk' : ¬(k = k0) := fun hh => hk hh.symm
      rw [pyGet_pyDictInsert_ne d k0 k v0 hk']
      simp [pyGet, hk]

/-- The seven schema blocks iterated by `_build_wine_metadata`'s merge loop. -/
def mergeBlocks : List String :=
  ["identificacion", "origen", "enologia", "perfil_sensorial", "maridaje",
   "servicio", "comercial"]

/-- The deterministic `base_metadata` dictionary of `_build_wine_metadata`. -/
def base_metadata (filename : String) (modified_at : Option String) (url : String) :
    List (String × JValue) :=
  [("identificacion", .jobj [
      ("vino_id", .jstr ((filename.splitOn ".").headD "")),
      ("nombre", .jstr filename),
      ("bodega", .jnull),
      ("añada", .jnull),
      ("sku", .jnull),
      ("url_ficha", .jstr url)]),
   ("origen", .jobj [
      ("pais", .jstr "Argentina"), ("region", .jnull), ("sub_region", .jnull),
      ("apelacion", .jnull), ("vinedo", .jnull), ("altitud_msnm", .jnull)]),
   ("enologia", .jobj [
      ("varietales", .jarr []), ("alcohol_vol", .jnull), ("ph", .jnull),
      ("acidez_total_gL", .jnull), ("azucar_residual_gL", .jnull),
      ("crianza", .jnull), ("potencial_guarda_años", .jnull)]),
   ("perfil_sensorial", .jobj [
      ("vista", .jnull), ("nariz", .jarr []), ("boca", .jnull),
      ("intensidad", .jnull), ("complejidad", .jnull)]),
   ("maridaje", .jobj [
      ("platos_recomendados", .jarr []), ("tipo_cocina", .jarr [])]),
   ("servicio", .jobj [
      ("temperatura_ideal_c", .jnull), ("decantacion_necesaria", .jbool false),
      ("tiempo_decantacion_min", .jnum 0), ("cristaleria_sugerida", .jnull)]),
   ("comercial", .jobj [
      ("rango_precio", .jnull), ("disponibilidad", .jbool true),
      ("puntuaciones", .jarr []), ("canal_venta", .jarr [])]),
   ("documental", .jobj [
      ("fuente_nombre", .jstr filename),
      ("fecha_ingesta", match modified_at with | some t => .jstr t | none => .jnull),
      ("version_esquema", .jstr "1.1 (LLM-Extracted)"),
      ("tipo_chunk", .jstr "fragmento_texto"),
      ("idioma", .jstr "es")])]

/-- One step of the merge loop of `_build_wine_metadata` for a block that is
present in the extraction as a dict: `base_metadata[block].update(...)`, with
the `identificacion` comprehension dropping `url_ficha` and `vino_id`. -/
def updateBlock (md : List (String × JValue)) (block : String)
    (e : List (String × JValue)) : List (String × JValue) :=
  match pyGet md block with
  | some (.jobj d) =>
    if block = "identificacion" then
      pyDictInsert md block (.jobj (pyUpdate d
        (e.filter fun kv => !(kv.1 == "url_ficha" || kv.1 == "vino_id"))))
    else
      pyDictInsert md block (.jobj (pyUpdate d e))
  | _ => md

/-- The body of `for block in [...]` in `_build_wine_metadata`: the block is
merged only when it is present in the extraction and is a dict
(`isinstance(extracted_data[block], dict)`). -/
def mergeStep (extracted_data : List (String × JValue)) (md : List (String × JValue))
    (block : String) : List (String × JValue) :=
  match pyGet extracted_data block with
  | some (.jobj e) => updateBlock md block e
  | _ => md

/-- `Analyzer._build_wine_metadata` for a dict-valued extraction result.
(An extraction of `{}` — the `_extract_wine_features` failure value — or of
`None` is Python-falsy, skips the merge loop, and is the `[]` instance here.) -/
def build_wine_metadata (filename : String) (modified_at : Option String) (url : String)
    (extracted_data : List (String × JValue)) : List (String × JValue) :=
  mergeBlocks.foldl (mergeStep extracted_data) (base_metadata filename modified_at url)

/-- The value stored at `md[block][key]` when `md[block]` is a dict. -/
def blockGet (md : List (String × JValue)) (block key : String) : Option JValue :=
  match pyGet md block with
  | some (.jobj d) => pyGet d key
  | _ => none

/-- What one merge pass does to the value stored at `block`, as a function of
that value alone. -/
def blockStep (extracted_data : List (String × JValue)) (block : String) :
    Option JValue → Option JValue
  | some (.jobj d) =>
    match pyGet extracted_data block with
    | some (.jobj e) =>
      some (.jobj (if block = "identificacion" then
        pyUpdate d (e.filter fun kv => !(kv.1 == "url_ficha" || kv.1 == "vino_id"))
      else pyUpdate d e))
    | _ => some (.jobj d)
  | v => v

theorem pyGet_mergeStep_ne (ed md : List (String × JValue)) (block b : String)
    (h : block ≠ b) : pyGet (mergeStep ed md block) b = pyGet md b := by
  unfold mergeStep updateBlock
  have hb : ¬(b = block) := fun hh => h hh.symm
  cases pyGet ed block with
  | none => rfl
  | some j =>
    cases j with
    | jobj e =>
      cases hmd : pyGet md block with
      | none => rfl
      | some j2 =>
        cases j2 <;> try rfl
        by_cases hid : block = "identificacion"
        · subst hid
          simp [pyGet_pyDictInsert_ne md _ b _ hb]
        · simp [hid, pyGet_pyDictInsert_ne md block b _ hb]
    | jnull => rfl
    | jbool b2 => rfl
    | jnum q => rfl
    | jstr s => rfl
    | jarr es => rfl

theorem pyGet_mergeStep_self (ed md : List (String × JValue)) (block : String) :
    pyGet (mergeStep ed md block) block = blockStep ed block (pyGet md block) := by
  unfold mergeStep updateBlock blockStep
  cases hed : pyGet ed block with
  | none =>
    cases hmd : pyGet md block with
    | none => rfl
    | some j => cases j <;> rfl
  | some j =>
    cases j with
    | jobj e =>
      cases hmd : pyGet md block with
      | none => simp [hmd]
      | some j2 =>
        cases j2 with
        | jobj d =>
          by_cases hid : block = "identificacion"
          · subst hid
            simp [pyGet_pyDictInsert_self]
          · simp [hid, pyGet_pyDictInsert_self]
        | jnull => exact hmd
        | jbool b2 => exact hmd
        | jnum q => exact hmd
        | jstr s => exact hmd
        | jarr es => exact hmd
    | jnull => cases hmd : pyGet md block with
      | none => rfl
      | some j2 => cases j2 <;> rfl
    | jbool b2 => cases hmd : pyGet md block with
      | none => rfl
      | some j2 => cases j2 <;> rfl
    | jnum q => cases hmd : pyGet md block with
      | none => rfl
      | some j2 => cases j2 <;> rfl
    | jstr s => cases hmd : pyGet md block with
      | none => rfl
      | some j2 => cases j2 <;> rfl
    | jarr es => cases hmd : pyGet md block with
      | none => rfl
      | some j2 => cases j2 <;> rfl

theorem pyGet_foldl_mergeStep (ed : List (String × JValue)) :
    ∀ (bs : List String) (md : List (String × JValue)) (b : String), bs.Nodup →
      pyGet (bs.foldl (mergeStep ed) md) b =
        if b ∈ bs then blockStep ed b (pyGet md b) else pyGet md b := by
  intro bs
  induction bs with
  | nil => intro md b _; simp
  | cons b0 t ih =>
    intro md b hnd
    rw [List.nodup_cons] at hnd
    rw [List.foldl_cons, ih _ _ hnd.2]
    by_cases hb : b = b0
    · subst hb
      rw [if_neg hnd.1, pyGet_mergeStep_self]
      simp
    · have hb' : b0 ≠ b := fun hh => hb hh.symm
      rw [pyGet_mergeStep_ne ed md b0 b hb']
      by_cases hmem : b ∈ t <;> simp [hmem, hb]

/-- `pyGet` of a `build_wine_metadata` result, per block. -/
theorem pyGet_build_wine_metadata (filename : String) (modified_at : Option String)
    (url : String) (ed : List (String × JValue)) (b : String) :
    pyGet (build_wine_metadata filename modified_at url ed) b =
      if b ∈ mergeBlocks then
        blockStep ed b (pyGet (base_metadata filename modified_at url) b)
      else pyGet (base_metadata filename modified_at url) b := by
  exact pyGet_foldl_mergeStep ed mergeBlocks _ b (by decide)

/-! ## External providers as oracles -/

/-- One tool call of an OpenAI chat completion message
(`tool_call.id`, `tool_call.function.name`, `tool_call.function.arguments`). -/
structure ToolCall where
  id : String
  name : String
  args : List Char

/-- An assistant chat-completion message: `content` may be `None`;
`tool_calls` is the (possibly empty) list of requested tool calls
(`None` in the source is the empty list — both are Python-falsy). -/
structure ChatMsg where
  content : Option (List Char)
  tool_calls : List ToolCall

/-- A transcript message sent to the chat API. -/
inductive Msg where
  | system (content : List Char)
  | user (content : List Char)
  | assistant (m : ChatMsg)
  | tool (id : String) (name : String) (content : List Char)

/-- One row returned by `VectorStore.search`: the `embedding_text` column and
the `meta_data` JSONB column (`.jnull` for a SQL `NULL`). -/
structure SearchRow where
  embedding_text : List Char
  meta : JValue

/-- All external effects of the analyzer, as pure oracles.  An
`Except.error e` models a raised exception whose `str(e)` is `e`.

* `embed` — `client.embeddings.create` (a vector of floats, modelled as `ℚ`);
* `search` — `vector_store.search` (the DB round trip for the query path);
* `chatExtract` — the `_extract_wine_features` completion, as a function of
  its user-message text; its result is the raw `message.content` string;
* `parseJson` — `json.loads`;
* `chatWithTools` — the first `ask_bot` completion (tools declared);
* `chatPlain` — the second `ask_bot` completion (no tools);
* `weather` — `get_weather`, which catches its own errors and always returns
  a string, applied to `function_args.get("location")`. -/
structure Oracle where
  embed : List Char → Except String (List ℚ)
  search : List ℚ → Except String (List SearchRow)
  chatExtract : List Char → Except String (List Char)
  parseJson : List Char → Except String JValue
  chatWithTools : List Msg → Except String ChatMsg
  chatPlain : List Msg → Except String ChatMsg
  weather : Option JValue → List Char

/-- `Analyzer.get_embedding` (src/analyzer.py:37-40): newlines are replaced by
spaces before the provider call. -/
def get_embedding (o : Oracle) (text : List Char) : Except String (List ℚ) :=
  o.embed (text.map fun c => if c = '\n' then ' ' else c)

/-! ## `Analyzer._extract_wine_features` (src/analyzer.py:259-297) -/

/-- The user-message text of the extraction request:
`f"Texto del documento:\n{sample_text}"` with `sample_text = text[:15000]`. -/
def extractRequestText (text : List Char) : List Char :=
  "Texto del documento:\n".data ++ text.take 15000

/-- `Analyzer._extract_wine_features`: request a completion on the bounded
prefix, parse it as JSON; any raised error (provider or `json.loads`) yields
the empty dict `{}`. -/
def extract_wine_features (o : Oracle) (text : List Char) : JValue :=
  match o.chatExtract (extractRequestText text) with
  | .error _ => .jobj []
  | .ok content =>
    match o.parseJson content with
    | .error _ => .jobj []
    | .ok j => j

/-! ## The per-file worker of `process_and_index_files` (src/analyzer.py:120-192) -/

/-- Python `str.isspace` on the ASCII whitespace characters stripped by
`str.strip()`. -/
def pyIsSpace (c : Char) : Bool :=
  c == ' ' || c == '\t' || c == '\n' || c == '\r' || c.toNat == 11 || c.toNat == 12

/-- One persisted `wine_chunks` row (`embedding_text`, `meta_data`,
`embedding`). -/
structure Rec where
  embedding_text : List Char
  meta : List (String × JValue)
  embedding : List ℚ

/-- The `embedding_text` composite `f"Vino/Documento: {name}\nContenido: {chunk}"`. -/
def embText (name : String) (chunk : List Char) : List Char :=
  "Vino/Documento: ".data ++ name.data ++ "\nContenido: ".data ++ chunk

/-- The chunk texts the worker embeds for a given extracted document text:
the whole text is sanitized, chunked with the default parameters, whitespace-
only chunks are discarded (`if not chunk.strip(): continue`) and each kept
chunk is sanitized again (`chunk = self.sanitize_text(chunk)`). -/
def filePlanChunks (text : List Char) : List (List Char) :=
  ((chunk_text (sanitize_text text)).getD []).filterMap fun c =>
    if c.all pyIsSpace then none else some (sanitize_text c)

/-- The embedding requests of one worker: one provider call per kept chunk. -/
def workerEmbeds (o : Oracle) (cs : List (List Char)) :
    Except String (List (List Char × List ℚ)) :=
  cs.mapM fun c => do
    let e ← get_embedding o c
    pure (c, e)

/-- The records produced by `_worker` for one file whose extracted text is
`text`: LLM metadata extraction, chunking, one embedding per kept chunk, and
one metadata dict shared by all chunks.  An embedding error is the
`Except.error` case — the surrounding `try` of `_worker` then discards the
whole file (zero records), without affecting sibling files.

The extraction result is merged only when it is a JSON object; `{}` and
`null` are Python-falsy and leave the base metadata untouched (non-object
truthy JSON cannot arise from the `json_object` response format). -/
def workerRecords (o : Oracle) (name : String) (modified_at : Option String)
    (url : String) (text : List Char) : Except String (List Rec) :=
  let ex := extract_wine_features o (sanitize_text text)
  let md := match ex with
    | .jobj ed => build_wine_metadata name modified_at url ed
    | _ => build_wine_metadata name modified_at url []
  match workerEmbeds o (filePlanChunks text) with
  | .error e => .error e
  | .ok pairs => .ok (pairs.map fun p => ⟨embText name p.1, md, p.2⟩)

/-! ## `VectorStore` projections (src/vector_store.py:65-97) -/

/-- JSONB path text extraction `meta_data -> block ->> key`
(SQL `NULL` when the path is missing, not an object, or holds JSON null). -/
def metaPathText (meta : List (String × JValue)) (block key : String) : Option String :=
  match pyGet meta block with
  | some (.jobj d) =>
    match pyGet d key with
    | some v => v.astext
    | none => none
  | _ => none

/-- The `documental.fuente_nombre` text of a stored record. -/
def recFuente (r : Rec) : Option String :=
  metaPathText r.meta "documental" "fuente_nombre"

/-- The `documental.fecha_ingesta` text of a stored record. -/
def recFecha (r : Rec) : Option String :=
  metaPathText r.meta "documental" "fecha_ingesta"

/-- `VectorStore.get_indexed_files_info`: the dict comprehension
`{r[0]: r[1] for r in results if r[0]}` over the distinct
`(fuente_nombre, fecha_ingesta)` projections — rows whose name is SQL `NULL`
or the empty string are skipped.  (The SQL `distinct()` only deduplicates
pairs; under the documented invariant that all rows of one source share one
`fecha_ingesta`, iterating the rows directly builds the same dict.) -/
def infoStep (m : List (String × Option String)) (r : Rec) :
    List (String × Option String) :=
  match recFuente r with
  | some n => if n = "" then m else pyDictInsert m n (recFecha r)
  | none => m

def get_indexed_files_info (store : List Rec) : List (String × Option String) :=
  store.foldl infoStep []

/-- A record the projection can see: its `fuente_nombre` is a non-empty
string. -/
def recVisible (r : Rec) : Bool :=
  match recFuente r with
  | some nm => nm != ""
  | none => false

/-- `VectorStore.delete_by_filename`: removes every row whose
`documental.fuente_nombre` text equals the filename. -/
def delete_by_filename (store : List Rec) (filename : String) : List Rec :=
  store.filter fun r => !(recFuente r == some filename)

/-! ## `Analyzer.process_and_index_files` (src/analyzer.py:76-215) -/

/-- One entry of the remote listing handed to `process_and_index_files`
(`files_data`): the dict keys it reads. -/
structure DriveFile where
  name : Option String
  modifiedTime : Option String
  webViewLink : Option String

/-- `drive_files_map = {f['name']: f for f in files_data if f.get('name')}`:
files with a missing or empty (falsy) name are skipped; a repeated name keeps
the last file. -/
def driveStep (m : List (String × DriveFile)) (f : DriveFile) :
    List (String × DriveFile) :=
  match f.name with
  | some n => if n = "" then m else pyDictInsert m n f
  | none => m

def driveFilesMap (files : List DriveFile) : List (String × DriveFile) :=
  files.foldl driveStep []

/-- `db_modified_at = indexed_files_info.get(name)` as a Python value: a
missing key and a stored SQL `NULL` are both Python `None`. -/
def dbStamp (info : List (String × Option String)) (name : String) : Option String :=
  (pyGet info name).join

/-- Python truthiness of the recorded stamp (`if db_modified_at:`,
`if not db_modified_at`): `None` and `""` are falsy. -/
def stampTruthy : Option String → Bool
  | some s => s != ""
  | none => false

/-- The condition of `if not db_modified_at or db_modified_at != drive_modified_at`:
the file is new (falsy recorded stamp) or modified (stamps differ). -/
def needsProcessing (info : List (String × Option String)) (name : String)
    (f : DriveFile) : Bool :=
  match dbStamp info name with
  | none => true
  | some s => if s = "" then true else f.modifiedTime != some s

/-- `files_to_delete = set(indexed_files_info.keys()) - set(drive_files_map.keys())`
(as the ordered list of indexed names; the source iterates a set in
unspecified order, and nothing downstream depends on the order). -/
def filesToDelete (info : List (String × Option String))
    (dmap : List (String × DriveFile)) : List String :=
  (keysOf info).filter fun n => !(pyHasKey dmap n)

/-- `files_to_process_names`, in `drive_files_map` iteration order. -/
def filesToProcess (info : List (String × Option String))
    (dmap : List (String × DriveFile)) : List String :=
  dmap.filterMap fun kv =>
    if needsProcessing info kv.1 kv.2 then some kv.1 else none

/-- The modified (rather than new) processed names: those whose old records
are deleted inside the `files_to_process` loop (`if db_modified_at:`). -/
def modifiedFiles (info : List (String × Option String))
    (dmap : List (String × DriveFile)) : List String :=
  dmap.filterMap fun kv =>
    if needsProcessing info kv.1 kv.2 && stampTruthy (dbStamp info kv.1) then
      some kv.1
    else none

/-- Observable index mutations of one sync run, in program order: the
stale-file deletions of step 1, then the modified-file deletions of step 2,
then the per-file processing pipelines (whose provider calls are recorded
separately in `ProviderCall`). -/
inductive SyncEvent where
  | deleteFile (name : String)
  | processFile (name : String)

/-- A provider (OpenAI) call made during sync, tagged with the file whose
worker makes it: the `_extract_wine_features` completion and the per-chunk
embedding requests.  Calls occur only inside `_worker`, which runs exactly
for the names of `files_to_process_names`. -/
inductive ProviderCall where
  | llmExtract (file : String)
  | embedChunk (file : String)

/-- The file a provider call is attributed to. -/
def ProviderCall.file : ProviderCall → String
  | .llmExtract n => n
  | .embedChunk n => n

/-- The provider calls issued while processing one file whose extracted text
is `text`: the metadata-extraction completion, then one embedding request per
kept chunk.  (A raised embedding error truncates the actual sequence; the
claims proved below only use that every call of a worker is tagged with that
worker's file.) -/
def fileCalls (name : String) (text : List Char) : List ProviderCall :=
  .llmExtract name :: (filePlanChunks text).map fun _ => .embedChunk name

/-- The sync return status (src/analyzer.py:110, 213, 215). -/
inductive SyncStatus where
  | noChanges (alreadyIndexed : Nat)
  | synced (nFiles nChunks : Nat)
  | noContent

/-- The outcome of one `process_and_index_files` run. -/
structure SyncResult where
  store : List Rec
  events : List SyncEvent
  calls : List ProviderCall
  status : SyncStatus

/-- `Analyzer.process_and_index_files` over a connected store.

`extractText name` models the text-extraction dispatch of `_worker`
(lines 122-162: `file.get('content')`, pandas/PyPDF2/decode, the Vision OCR
fallback): `none` stands for a missing content or a raised extraction error,
both of which yield zero records for the file.  The thread pool only changes
the completion order of the disjoint per-file results; the bulk insert is
modelled in submission order, and `add_documents` appending nothing when no
chunks were produced coincides with appending the empty list. -/
def runSync (store : List Rec) (files : List DriveFile) (o : Oracle)
    (extractText : String → Option (List Char)) : SyncResult :=
  let info := get_indexed_files_info store
  let dmap := driveFilesMap files
  let toDelete := filesToDelete info dmap
  let store1 := toDelete.foldl delete_by_filename store
  let toProcess := filesToProcess info dmap
  let modified := modifiedFiles info dmap
  let store2 := modified.foldl delete_by_filename store1
  if toProcess.isEmpty && toDelete.isEmpty then
    { store := store2
      events := toDelete.map .deleteFile ++ modified.map .deleteFile
      calls := []
      status := .noChanges info.length }
  else
    let perFileRecs : String → List Rec := fun n =>
      match extractText n, pyGet dmap n with
      | some text, some f =>
        match workerRecords o n f.modifiedTime (f.webViewLink.getD "") text with
        | .ok rs => rs
        | .error _ => []
      | _, _ => []
    let perFileCalls : String → List ProviderCall := fun n =>
      match extractText n, pyGet dmap n with
      | some text, some _ => fileCalls n text
      | _, _ => []
    let allChunks := toProcess.flatMap perFileRecs
    { store := store2 ++ allChunks
      events := toDelete.map .deleteFile ++ modified.map .deleteFile
        ++ toProcess.map .processFile
      calls := toProcess.flatMap perFileCalls
      status := if allChunks.isEmpty then .noContent
        else .synced toProcess.length allChunks.length }

/-! ## `Analyzer.ask_bot` (src/analyzer.py:342-445) -/

/-- Equality used by the Python `set` of collected source values
(`source_files.add(...)` adds `None` or a JSON value). -/
def optBeq : Option JValue → Option JValue → Bool
  | none, none => true
  | some x, some y => JValue.beq x y
  | _, _ => false

/-- `set.add`: keep insertion order, skip elements already present. -/
def setAdd (s : List (Option JValue)) (x : Option JValue) : List (Option JValue) :=
  if s.any (fun y => optBeq y x) then s else s ++ [x]

/-- The source value one retrieved row contributes:
`if res.get('metadata') and res['metadata'].get('documental'):` then
`res['metadata']['documental'].get('fuente_nombre')` is added.  (A truthy
non-object at either level would raise inside the same `try` and degrade the
whole retrieval; real rows hold objects, so that case contributes nothing
here.) -/
def rowSource (row : SearchRow) : Option (Option JValue) :=
  match row.meta with
  | .jobj m =>
    if m.isEmpty then none
    else
      match pyGet m "documental" with
      | some (.jobj d) =>
        if (JValue.jobj d).pyTruthy then some (pyGet d "fuente_nombre") else none
      | _ => none
  | _ => none

/-- The distinct source values collected from the retrieved rows, in first-
seen order. -/
def collectSources (results : List SearchRow) : List (Option JValue) :=
  results.foldl (fun s row =>
    match rowSource row with
    | some v => setAdd s v
    | none => s) []

/-- The retrieved context string: the `--- Ficha Técnica / Fragmento ---`
parts joined with blank lines. -/
def retrievedContext (results : List SearchRow) : List Char :=
  List.intercalate "\n\n".data
    (results.map fun r => "--- Ficha Técnica / Fragmento ---\n".data ++ r.embedding_text)

/-- RAG retrieval of `ask_bot` (src/analyzer.py:346-360): embed the query and
search; any raised provider error is caught and leaves the context empty and
the source set empty. -/
def askBotRetrieval (o : Oracle) (query : List Char) :
    List Char × List (Option JValue) :=
  match get_embedding o query with
  | .error _ => ([], [])
  | .ok emb =>
    match o.search emb with
    | .error _ => ([], [])
    | .ok results => (retrievedContext results, collectSources results)

/-- The `ask_bot` system prompt (src/analyzer.py:362-368). -/
def systemPromptText : List Char :=
  ("You are a helpful data analytics assistant. "
    ++ "Use the provided context to answer questions about documents. "
    ++ "If you need to know the weather, use the 'get_weather' tool. "
    ++ "For Oliveros, Santa Fe, always use the 'get_weather' tool when asked. "
    ++ "Do NOT mention source files in your response.").data

/-- The initial transcript: system prompt plus the context-bearing user turn. -/
def askBotMessages (query ctx : List Char) : List Msg :=
  [.system systemPromptText,
   .user ("Context:\n".data ++ ctx ++ "\n\nQuestion: ".data ++ query)]

/-- The `for tool_call in tool_calls` loop (src/analyzer.py:410-422):
`json.loads` the arguments (a raised error escapes to the outer handler),
then execute `get_weather` for calls so named, appending a tool-role message
with the tool result; other tool names leave the transcript untouched.
`function_args.get("location")` on a non-dict raises (`AttributeError`). -/
def askToolLoop (o : Oracle) :
    List ToolCall → List Msg → Bool → Except String (List Msg × Bool)
  | [], msgs, used => .ok (msgs, used)
  | tc :: rest, msgs, used =>
    match o.parseJson tc.args with
    | .error e => .error e
    | .ok (.jobj d) =>
      if tc.name = "get_weather" then
        askToolLoop o rest
          (msgs ++ [.tool tc.id tc.name (o.weather (pyGet d "location"))]) true
      else askToolLoop o rest msgs used
    | .ok _ => .error "AttributeError"

/-- The answer record `{"answer": ..., "sources": ...}`. -/
structure Answer where
  answer : Option (List Char)
  sources : List (Option JValue)

/-- The error answer of the outer `except` (src/analyzer.py:441-445). -/
def errAnswer (e : String) : Answer :=
  ⟨some ("Error communicating with OpenAI: ".data ++ e.data), []⟩

/-- What `ask_bot` does with the first completion message: no tool calls
means the first content is the answer with the collected sources; otherwise
the tool round-trip runs, a second completion is requested with the full
transcript, and `used_weather` empties the source set.  Raised errors reach
the outer handler. -/
def askBotAfterFirst (o : Oracle) (msgs0 : List Msg)
    (sources : List (Option JValue)) (rm : ChatMsg) : Answer :=
  if rm.tool_calls.isEmpty then
    ⟨rm.content, sources⟩
  else
    match askToolLoop o rm.tool_calls (msgs0 ++ [.assistant rm]) false with
    | .error e => errAnswer e
    | .ok (msgs1, used) =>
      match o.chatPlain msgs1 with
      | .error e => errAnswer e
      | .ok m2 => ⟨m2.content, if used then [] else sources⟩

/-- `Analyzer.ask_bot` with a connected vector store (the `None`-store case
skips retrieval exactly like a caught search error). -/
def ask_bot (o : Oracle) (query : List Char) : Answer :=
  let rs := askBotRetrieval o query
  let msgs0 := askBotMessages query rs.1
  match o.chatWithTools msgs0 with
  | .error e => errAnswer e
  | .ok rm => askBotAfterFirst o msgs0 rs.2 rm

/-! ## Claim theorems -/

/-- The chunk-length profile of the spec's `"A"*4500` example, for any text of
length 4500: three windows starting at 0, 1800 and 3600, of lengths
2000, 2000 and 900 (the last window `[3600, 5600)` is clipped to 4500). -/
theorem chunk_text_len4500 (text : List Char) (htext : text.length = 4500) :
    (chunk_text text 2000 200).map (fun cks => cks.map List.length)
      = some [2000, 2000, 900] := by
  obtain ⟨cks, heq, hlen, hget⟩ := chunk_text_spec text 2000 200 (by norm_num)
  have hlen3 : cks.length = 3 := by
    have h2 : 2 < cks.length := (hlen 2).2 (by rw [htext]; norm_num)
    have h3 : ¬(3 < cks.length) := fun hc => by
      have := (hlen 3).1 hc
      rw [htext] at this
      norm_num at this
    omega
  rcases cks with _ | ⟨a, _ | ⟨b, _ | ⟨c, _ | ⟨d, t⟩⟩⟩⟩ <;> simp_all
  have ha : a = pySlice text 0 2000 := by simpa using hget 0 (by norm_num)
  have hb : b = pySlice text 1800 3800 := by simpa using hget 1 (by norm_num)
  have hc : c = pySlice text 3600 5600 := by simpa using hget 2 (by norm_num)
  have la : a.length = 2000 := by
    rw [ha, pySlice_length text 0 2000 (by norm_num) (by norm_num), htext]
    decide
  have lb : b.length = 2000 := by
    rw [hb, pySlice_length text 1800 3800 (by norm_num) (by norm_num), htext]
    decide
  have lc : c.length = 900 := by
    rw [hc, pySlice_length text 3600 5600 (by norm_num) (by norm_num), htext]
    decide
  simp [la, lb, lc]

/-- C3.  The chunker is a deterministic pure function whose windows follow
the documented arithmetic — chunk `i` spans
`[i·(chunk_size-overlap), i·(chunk_size-overlap)+chunk_size)` clipped to the
text length, production stops exactly when the window start reaches the
length, and any non-empty text yields at least one chunk — but the spec's
`"A"*4500` example yields chunk lengths `[2000, 2000, 900]`: the third window
`[3600, 5600)` clipped to 4500 holds 900 characters, not 700. -/
theorem chunker_window_arithmetic :
    (∀ (text : List Char) (chunkSize overlap : Int), overlap < chunkSize →
      ∃ cks, chunk_text text chunkSize overlap = some cks ∧
        (∀ i : Nat, i < cks.length ↔
          (i : Int) * (chunkSize - overlap) < (text.length : Int)) ∧
        (∀ (i : Nat) (hi : i < cks.length),
          cks.get ⟨i, hi⟩ = pySlice text ((i : Int) * (chunkSize - overlap))
            ((i : Int) * (chunkSize - overlap) + chunkSize)) ∧
        (text ≠ [] → cks ≠ [])) ∧
    (chunk_text (List.replicate 4500 'A') 2000 200).map (fun cks => cks.map List.length)
      = some [2000, 2000, 900] := by
  constructor
  · intro text chunkSize overlap h
    obtain ⟨cks, heq, hlen, hget⟩ := chunk_text_spec text chunkSize overlap h
    refine ⟨cks, heq, hlen, hget, fun hne => ?_⟩
    have hp : 0 < text.length := List.length_pos.2 hne
    have h0 : 0 < cks.length := (hlen 0).2 (by
      rw [Nat.cast_zero, zero_mul]
      exact_mod_cast hp)
    exact List.ne_nil_of_length_pos h0
  · exact chunk_text_len4500 _ (by rw [List.length_replicate])

/-- Witness for C3's theorem: the window arithmetic applied to a concrete
call. -/
theorem chunker_window_arithmetic_witness :
    ∃ cks, chunk_text "abcde".data 2 0 = some cks ∧ cks ≠ [] := by
  obtain ⟨cks, heq, _, _, hne⟩ :=
    chunker_window_arithmetic.1 "abcde".data 2 0 (by norm_num)
  exact ⟨cks, heq, hne (by decide)⟩

/-- C3, counterexample to the claim as stated: the `"A"*4500` example does
not produce chunk lengths `[2000, 2000, 700]` — the actual third length is
900. -/
theorem chunker_example_lengths_not_700 :
    (chunk_text (List.replicate 4500 'A') 2000 200).map (fun cks => cks.map List.length)
        = some [2000, 2000, 900] ∧
    (chunk_text (List.replicate 4500 'A') 2000 200).map (fun cks => cks.map List.length)
        ≠ some [2000, 2000, 700] := by
  have h := chunk_text_len4500 (List.replicate 4500 'A') (by rw [List.length_replicate])
  refine ⟨h, ?_⟩
  rw [h]
  decide

/-- C9.  `chunk_text` terminates for every text and parameters with
`overlap < chunk_size` (the window start advances by the positive stride
`chunk_size - overlap` each iteration), and diverges — the loop guard never
becomes false, exhausting any amount of fuel — whenever
`chunk_size ≤ overlap` and the text is non-empty (in particular for any text
longer than `chunk_size`), so `overlap < chunk_size` is a necessary
precondition for totality. -/
theorem chunk_text_termination :
    (∀ (text : List Char) (chunkSize overlap : Int), overlap < chunkSize →
      (chunk_text text chunkSize overlap).isSome = true) ∧
    (∀ (text : List Char) (chunkSize overlap : Int), chunkSize ≤ overlap →
      text ≠ [] →
      ∀ fuel : Nat, chunkLoop text chunkSize overlap fuel 0 [] = none) := by
  constructor
  · intro text chunkSize overlap h
    obtain ⟨cks, heq, -, -⟩ := chunk_text_spec text chunkSize overlap h
    simp [heq]
  · intro text chunkSize overlap h hne fuel
    exact chunkLoop_none_of_stride_nonpos text chunkSize overlap (by omega) fuel 0 []
      (by simpa using List.length_pos.2 hne)

/-- Witness for C9: termination at `overlap < chunk_size` on a concrete call,
and divergence of the concrete defaulted call with `chunk_size = overlap`. -/
theorem chunk_text_termination_witness :
    (chunk_text "abc".data 2 1).isSome = true ∧
    chunkLoop "abc".data 5 5 1000 0 [] = none :=
  ⟨chunk_text_termination.1 "abc".data 2 1 (by norm_num),
   chunk_text_termination.2 "abc".data 5 5 (by norm_num) (by decide) 1000⟩

/-- A Unicode control character: the C0 range (below 32), DEL (127), and the
C1 range (128-159). -/
def isUnicodeControl (c : Char) : Bool :=
  c.toNat < 32 || c.toNat == 127 || (128 ≤ c.toNat && c.toNat ≤ 159)

/-- C8, counterexample to the claim as stated: `sanitize_text` keeps the DEL
character (code point 127), which is a control character other than newline
and tab, so the output is not restricted to newline, tab and non-control
characters — the comparison `ord(char) >= 32` only strips the C0 range. -/
theorem sanitize_control_claim_false :
    ¬(∀ (text : List Char), ∀ c ∈ sanitize_text text,
        c = '\n' ∨ c = '\t' ∨ isUnicodeControl c = false) := by
  intro h
  have := h [Char.ofNat 127] (Char.ofNat 127) (by decide)
  revert this
  decide

/-- C8, amended.  `sanitize_text` removes exactly the characters of code
point below 32 other than newline and tab (DEL and the C1 controls are
retained): every output character is newline, tab or of code point ≥ 32;
every input character satisfying that is kept; the output is the order-
preserving filter (a sublist) of the input; and the worker pipeline applies
it both to the whole document text before chunking and to each kept chunk
independently, so every embedded chunk character satisfies the same bound. -/
theorem sanitize_text_spec :
    (∀ text : List Char, ∀ c ∈ sanitize_text text,
      c = '\n' ∨ c = '\t' ∨ 32 ≤ c.toNat) ∧
    (∀ text : List Char, ∀ c ∈ text,
      (c = '\n' ∨ c = '\t' ∨ 32 ≤ c.toNat) → c ∈ sanitize_text text) ∧
    (∀ text : List Char, (sanitize_text text).Sublist text) ∧
    (∀ text : List Char, filePlanChunks text =
      ((chunk_text (sanitize_text text)).getD []).filterMap fun c =>
        if c.all pyIsSpace then none else some (sanitize_text c)) ∧
    (∀ text : List Char, ∀ ck ∈ filePlanChunks text, ∀ c ∈ ck,
      c = '\n' ∨ c = '\t' ∨ 32 ≤ c.toNat) := by
  have hkeep : ∀ c : Char, keepChar c = true ↔ (c = '\n' ∨ c = '\t' ∨ 32 ≤ c.toNat) := by
    intro c
    simp [keepChar, or_assoc]
  refine ⟨?_, ?_, ?_, fun _ => rfl, ?_⟩
  · intro text c hc
    exact (hkeep c).1 (List.of_mem_filter hc)
  · intro text c hc hcond
    exact List.mem_filter.2 ⟨hc, (hkeep c).2 hcond⟩
  · intro text
    exact List.filter_sublist text
  · intro text ck hck c hc
    rcases List.mem_filterMap.1 hck with ⟨c0, -, hc0⟩
    by_cases hsp : c0.all pyIsSpace
    · simp [hsp] at hc0
    · simp only [hsp, Bool.false_eq_true, if_false, Option.some.injEq] at hc0
      subst hc0
      exact (hkeep c).1 (List.of_mem_filter hc)

/-- Witness for C8's amended theorem: a NUL character is dropped while a
printable character is kept. -/
theorem sanitize_text_spec_witness :
    'a' ∈ sanitize_text ['a', Char.ofNat 0] :=
  sanitize_text_spec.2.1 ['a', Char.ofNat 0] 'a' (by decide) (by decide)

/-- The stub oracle used by concrete instances: every provider call fails
(the analyzer must degrade, never raise). -/
def stubOracle : Oracle where
  embed := fun _ => .error "offline"
  search := fun _ => .error "offline"
  chatExtract := fun _ => .error "offline"
  parseJson := fun _ => .error "invalid json"
  chatWithTools := fun _ => .error "offline"
  chatPlain := fun _ => .error "offline"
  weather := fun _ => "sin datos".data

/-- C7.  The metadata extractor sends only the first 15000 characters of the
document (two extractions of texts sharing that prefix are
indistinguishable), returns the empty extraction `{}` on a provider error or
a JSON parse error instead of raising, and extraction outcomes never change
which chunks the worker indexes — the embedded texts and vectors depend only
on the embedding provider. -/
theorem extractor_bounded_and_total :
    (∀ text : List Char, (text.take 15000).length ≤ 15000) ∧
    (∀ text : List Char,
      extractRequestText text = "Texto del documento:\n".data ++ text.take 15000) ∧
    (∀ (o : Oracle) (text text' : List Char), text.take 15000 = text'.take 15000 →
      extract_wine_features o text = extract_wine_features o text') ∧
    (∀ (o : Oracle) (text : List Char) (e : String),
      o.chatExtract (extractRequestText text) = .error e →
      extract_wine_features o text = .jobj []) ∧
    (∀ (o : Oracle) (text content : List Char) (e : String),
      o.chatExtract (extractRequestText text) = .ok content →
      o.parseJson content = .error e →
      extract_wine_features o text = .jobj []) ∧
    (∀ (o o' : Oracle) (name : String) (m : Option String) (url : String)
        (text : List Char), o.embed = o'.embed →
      (workerRecords o name m url text).map
          (List.map fun r => (r.embedding_text, r.embedding))
        = (workerRecords o' name m url text).map
          (List.map fun r => (r.embedding_text, r.embedding))) := by
  refine ⟨?_, fun _ => rfl, ?_, ?_, ?_, ?_⟩
  · intro text
    simp [List.length_take]
  · intro o text text' h
    unfold extract_wine_features extractRequestText
    rw [h]
  · intro o text e h
    unfold extract_wine_features
    rw [h]
  · intro o text content e h1 h2
    simp [extract_wine_features, h1, h2]
  · intro o o' name m url text h
    have hembeds : workerEmbeds o (filePlanChunks text)
        = workerEmbeds o' (filePlanChunks text) := by
      unfold workerEmbeds get_embedding
      rw [h]
    unfold workerRecords
    rw [hembeds]
    cases workerEmbeds o' (filePlanChunks text) with
    | error e => rfl
    | ok pairs => simp [Except.map, List.map_map]

/-- Witness for C7: the all-failing oracle still yields the empty extraction. -/
theorem extractor_bounded_and_total_witness :
    extract_wine_features stubOracle "vino".data = .jobj [] :=
  extractor_bounded_and_total.2.2.2.1 stubOracle "vino".data "offline" rfl

/-- Looking a key up after filtering an association list on a predicate that
accepts every binding of that key sees the same bindings. -/
theorem pyGet_filter_keys {β : Type} (p : String × β → Bool) (k : String)
    (hk : ∀ v : β, p (k, v) = true) :
    ∀ e : List (String × β), pyGet (e.filter p) k = pyGet e k := by
  intro e
  induction e with
  | nil => simp
  | cons hd t ih =>
    obtain ⟨k0, v0⟩ := hd
    by_cases h0 : k0 = k
    · subst h0
      simp [hk v0, pyGet]
    · by_cases hp : p (k0, v0) = true <;> simp [hp, pyGet, h0, ih]

/-- A key all of whose bindings the filter predicate rejects is absent
afterwards. -/
theorem pyGet_filter_keys_neg {β : Type} (p : String × β → Bool) (k : String)
    (hk : ∀ v : β, p (k, v) = false) :
    ∀ e : List (String × β), pyGet (e.filter p) k = none := by
  intro e
  induction e with
  | nil => simp [pyGet]
  | cons hd t ih =>
    obtain ⟨k0, v0⟩ := hd
    by_cases h0 : k0 = k
    · subst h0
      simp [hk v0, ih]
    · by_cases hp : p (k0, v0) = true <;> simp [hp, pyGet, h0, ih]

theorem nodup_keysOf_filter {β : Type} (p : String × β → Bool)
    (e : List (String × β)) (h : (keysOf e).Nodup) :
    (keysOf (e.filter p)).Nodup :=
  List.Nodup.sublist (List.Sublist.map Prod.fst (List.filter_sublist e)) h

/-- Every block of the base metadata record is a dict. -/
theorem base_block_isObj (filename : String) (modified_at : Option String)
    (url : String) (block : String) (hmem : block ∈ mergeBlocks) :
    ∃ d, pyGet (base_metadata filename modified_at url) block = some (.jobj d) := by
  fin_cases hmem <;> exact ⟨_, rfl⟩

/-- C4.  The extraction-merge policy of `_build_wine_metadata`: for every
block other than `identificacion`, a key present in the extraction's block
overwrites the base value shallowly and an absent key keeps the base
default; for `identificacion` the same holds for every key except
`url_ficha` and `vino_id`, which always keep the system-computed URL and
filename-derived id; and the spec's example — extraction
`{enologia: {alcohol_vol: 13.5}}` — yields `alcohol_vol = 13.5`, leaves
`ph` at the `null` default and keeps `url_ficha` pinned. -/
theorem metadata_merge_policy (filename : String) (modified_at : Option String)
    (url : String) (ed : List (String × JValue)) :
    (∀ block, block ∈ mergeBlocks → block ≠ "identificacion" →
      ∀ e, pyGet ed block = some (.jobj e) → (keysOf e).Nodup →
      ∀ k, blockGet (build_wine_metadata filename modified_at url ed) block k =
        match pyGet e k with
        | some v => some v
        | none => blockGet (base_metadata filename modified_at url) block k) ∧
    (∀ e, pyGet ed "identificacion" = some (.jobj e) → (keysOf e).Nodup →
      (∀ k, k ≠ "url_ficha" → k ≠ "vino_id" →
        blockGet (build_wine_metadata filename modified_at url ed) "identificacion" k =
          match pyGet e k with
          | some v => some v
          | none => blockGet (base_metadata filename modified_at url) "identificacion" k) ∧
      blockGet (build_wine_metadata filename modified_at url ed) "identificacion" "url_ficha"
        = some (.jstr url) ∧
      blockGet (build_wine_metadata filename modified_at url ed) "identificacion" "vino_id"
        = some (.jstr ((filename.splitOn ".").headD ""))) ∧
    (blockGet (build_wine_metadata filename modified_at url
        [("enologia", .jobj [("alcohol_vol", .jnum 13.5)])]) "enologia" "alcohol_vol"
      = some (.jnum 13.5) ∧
     blockGet (build_wine_metadata filename modified_at url
        [("enologia", .jobj [("alcohol_vol", .jnum 13.5)])]) "enologia" "ph"
      = some .jnull ∧
     blockGet (build_wine_metadata filename modified_at url
        [("enologia", .jobj [("alcohol_vol", .jnum 13.5)])]) "identificacion" "url_ficha"
      = some (.jstr url)) := by
  refine ⟨?_, ?_, by constructor; rfl; constructor; rfl; rfl⟩
  · intro block hmem hne e hed hnodup k
    obtain ⟨d, hbase⟩ := base_block_isObj filename modified_at url block hmem
    have hres : pyGet (build_wine_metadata filename modified_at url ed) block
        = some (.jobj (pyUpdate d e)) := by
      rw [pyGet_build_wine_metadata, if_pos hmem, hbase]
      simp [blockStep, hed, hne]
    simp only [blockGet, hres, hbase]
    rw [pyGet_pyUpdate e hnodup d k]
    cases pyGet e k <;> rfl
  · intro e hed hnodup
    have hmem : "identificacion" ∈ mergeBlocks := by decide
    obtain ⟨d, hbase⟩ := base_block_isObj filename modified_at url "identificacion" hmem
    have h0 : pyGet (base_metadata filename modified_at url) "identificacion"
        = some (.jobj [("vino_id", .jstr ((filename.splitOn ".").headD "")),
          ("nombre", .jstr filename), ("bodega", .jnull), ("añada", .jnull),
          ("sku", .jnull), ("url_ficha", .jstr url)]) := rfl
    rw [h0] at hbase
    injection hbase with hbase1
    injection hbase1 with hbase2
    subst hbase2
    have hres : pyGet (build_wine_metadata filename modified_at url ed) "identificacion"
        = some (.jobj (pyUpdate [("vino_id", .jstr ((filename.splitOn ".").headD "")),
            ("nombre", .jstr filename), ("bodega", .jnull), ("añada", .jnull),
            ("sku", .jnull), ("url_ficha", .jstr url)]
            (e.filter fun kv => !(kv.1 == "url_ficha" || kv.1 == "vino_id")))) := by
      rw [pyGet_build_wine_metadata, if_pos hmem, h0]
      simp [blockStep, hed]
    have hnodup2 : (keysOf (e.filter fun kv =>
        !(kv.1 == "url_ficha" || kv.1 == "vino_id"))).Nodup :=
      nodup_keysOf_filter _ e hnodup
    refine ⟨?_, ?_, ?_⟩
    · intro k hk1 hk2
      simp only [blockGet, hres, h0]
      rw [pyGet_pyUpdate _ hnodup2 _ k]
      rw [pyGet_filter_keys _ k (fun v => by simp [hk1, hk2]) e]
      cases pyGet e k <;> rfl
    · simp only [blockGet, hres]
      rw [pyGet_pyUpdate _ hnodup2 _ "url_ficha"]
      rw [pyGet_filter_keys_neg _ "url_ficha" (fun v => rfl) e]
      rfl
    · simp only [blockGet, hres]
      rw [pyGet_pyUpdate _ hnodup2 _ "vino_id"]
      rw [pyGet_filter_keys_neg _ "vino_id" (fun v => rfl) e]
      rfl

/-- Witness for C4: an extraction proposing its own `url_ficha` cannot
displace the system-supplied URL. -/
theorem metadata_merge_policy_witness :
    blockGet (build_wine_metadata "x.pdf" (some "t0") "sys-url"
        [("identificacion", .jobj [("url_ficha", .jstr "attacker"),
          ("bodega", .jstr "Bianchi")])]) "identificacion" "url_ficha"
      = some (.jstr "sys-url") ∧
    blockGet (build_wine_metadata "x.pdf" (some "t0") "sys-url"
        [("identificacion", .jobj [("url_ficha", .jstr "attacker"),
          ("bodega", .jstr "Bianchi")])]) "identificacion" "bodega"
      = some (.jstr "Bianchi") := by
  have h := (metadata_merge_policy "x.pdf" (some "t0") "sys-url"
    [("identificacion", .jobj [("url_ficha", .jstr "attacker"),
      ("bodega", .jstr "Bianchi")])]).2.1
    [("url_ficha", .jstr "attacker"), ("bodega", .jstr "Bianchi")] rfl (by decide)
  refine ⟨h.2.1, ?_⟩
  rw [h.1 "bodega" (by decide) (by decide)]
  rfl

/-- Where the keys of the `get_indexed_files_info` dict come from: a key can
only be contributed by a record whose `fuente_nombre` is that (non-empty)
name. -/
theorem infoFold_get (recs : List Rec) :
    ∀ (m : List (String × Option String)) (n : String) (v : Option String),
      pyGet (recs.foldl infoStep m) n = some v →
      (pyGet m n).isSome = true ∨ (n ≠ "" ∧ ∃ r ∈ recs, recFuente r = some n) := by
  induction recs with
  | nil =>
    intro m n v h
    rw [List.foldl_nil] at h
    left
    simp [h]
  | cons r t ih =>
    intro m n v h
    rw [List.foldl_cons] at h
    rcases ih _ n v h with hm | ⟨hne, r', hr', hf⟩
    · unfold infoStep at hm
      cases hf0 : recFuente r with
      | none =>
        simp only [hf0] at hm
        left; exact hm
      | some nm =>
        simp only [hf0] at hm
        by_cases hemp : nm = ""
        · rw [if_pos hemp] at hm
          left; exact hm
        · rw [if_neg hemp] at hm
          by_cases hn : nm = n
          · subst hn
            exact Or.inr ⟨hemp, r, List.mem_cons_self r t, hf0⟩
          · rw [pyGet_pyDictInsert_ne m nm n _ (fun hh => hn hh.symm)] at hm
            left; exact hm
    · exact Or.inr ⟨hne, r', List.mem_cons_of_mem r hr', hf⟩

/-- Records with a null or empty `fuente_nombre` contribute nothing to the
`get_indexed_files_info` fold. -/
theorem infoFold_filter (recs : List Rec) :
    ∀ m : List (String × Option String),
      recs.foldl infoStep m = (recs.filter recVisible).foldl infoStep m := by
  induction recs with
  | nil => intro m; rfl
  | cons r t ih =>
    intro m
    rw [List.foldl_cons, List.filter_cons]
    cases hf0 : recFuente r with
    | none =>
      have hv : recVisible r = false := by simp [recVisible, hf0]
      have hstep : infoStep m r = m := by simp [infoStep, hf0]
      rw [hv, hstep]
      simpa using ih m
    | some nm =>
      by_cases hemp : nm = ""
      · subst hemp
        have hv : recVisible r = false := by simp [recVisible, hf0]
        have hstep : infoStep m r = m := by simp [infoStep, hf0]
        rw [hv, hstep]
        simpa using ih m
      · have hv : recVisible r = true := by simp [recVisible, hf0, hemp]
        have hstep : infoStep m r = pyDictInsert m nm (recFecha r) := by
          simp [infoStep, hf0, hemp]
        rw [hv, hstep]
        simpa [List.foldl_cons, hstep] using ih (pyDictInsert m nm (recFecha r))

/-- C10.  The `{name: lastModified}` projection used for change detection
contains only names contributed by records whose `documental.fuente_nombre`
is a non-null, non-empty string; records without such a name are invisible —
filtering them away leaves the projection unchanged — and consequently every
name the sync diff selects for deletion comes from a visible record (remote
names, the only candidates for reprocessing, never refer to them either). -/
theorem indexed_info_visibility :
    (∀ (store : List Rec) (n : String) (v : Option String),
      pyGet (get_indexed_files_info store) n = some v →
      n ≠ "" ∧ ∃ r ∈ store, recFuente r = some n) ∧
    (∀ store : List Rec,
      get_indexed_files_info store
        = get_indexed_files_info (store.filter recVisible)) ∧
    (∀ (store : List Rec) (files : List DriveFile) (n : String),
      n ∈ filesToDelete (get_indexed_files_info store) (driveFilesMap files) →
      n ≠ "" ∧ ∃ r ∈ store, recFuente r = some n) := by
  refine ⟨?_, ?_, ?_⟩
  · intro store n v h
    rcases infoFold_get store [] n v h with hm | hgood
    · simp [pyGet] at hm
    · exact hgood
  · intro store
    exact infoFold_filter store []
  · intro store files n hmem
    have hkeys : n ∈ keysOf (get_indexed_files_info store) :=
      (List.mem_filter.1 hmem).1
    have hsome : (pyGet (get_indexed_files_info store) n).isSome :=
      (pyGet_isSome_iff_mem_keys _ n).2 hkeys
    cases hv : pyGet (get_indexed_files_info store) n with
    | none => rw [hv] at hsome; simp at hsome
    | some v =>
      rcases infoFold_get store [] n v hv with hm | hgood
      · simp [pyGet] at hm
      · exact hgood

/-- A concrete indexed record (one chunk of file `f.txt` stamped `t1`). -/
def recW : Rec :=
  ⟨"doc".data, build_wine_metadata "f.txt" (some "t1") "" [], []⟩

/-- Witness for C10: a stored record with a real source name is visible. -/
theorem indexed_info_visibility_witness :
    "f.txt" ≠ "" ∧ ∃ r ∈ [recW], recFuente r = some "f.txt" :=
  indexed_info_visibility.1 [recW] "f.txt" (some "t1") rfl

/-! ## Sync-diff lemmas -/

theorem nodup_keys_driveFold (files : List DriveFile) :
    ∀ m : List (String × DriveFile), (keysOf m).Nodup →
      (keysOf (files.foldl driveStep m)).Nodup := by
  induction files with
  | nil => intro m h; exact h
  | cons f t ih =>
    intro m h
    rw [List.foldl_cons]
    refine ih _ ?_
    unfold driveStep
    cases f.name with
    | none => exact h
    | some n =>
      by_cases hemp : n = ""
      · simpa [hemp] using h
      · simpa [hemp] using nodup_keysOf_pyDictInsert m n f h

theorem nodup_keys_driveFilesMap (files : List DriveFile) :
    (keysOf (driveFilesMap files)).Nodup :=
  nodup_keys_driveFold files [] (by simp)

theorem pyGet_map_val {β γ : Type} (g : β → γ) :
    ∀ (d : List (String × β)) (k : String),
      pyGet (d.map fun kv => (kv.1, g kv.2)) k = (pyGet d k).map g := by
  intro d
  induction d with
  | nil => intro k; rfl
  | cons hd t ih =>
    obtain ⟨k0, v0⟩ := hd
    intro k
    by_cases h : k0 = k <;> simp [pyGet, h, ih]

/-- The remote listing as a `{name: lastModified}` map (the counterpart of
`get_indexed_files_info` on the Drive side). -/
def remoteStamps (files : List DriveFile) : List (String × Option String) :=
  (driveFilesMap files).map fun kv => (kv.1, kv.2.modifiedTime)

theorem pyGet_remoteStamps (files : List DriveFile) (n : String) :
    pyGet (remoteStamps files) n
      = (pyGet (driveFilesMap files) n).map DriveFile.modifiedTime :=
  pyGet_map_val DriveFile.modifiedTime (driveFilesMap files) n

theorem mem_filesToDelete_iff (info : List (String × Option String))
    (dmap : List (String × DriveFile)) (n : String) :
    n ∈ filesToDelete info dmap ↔
      n ∈ keysOf info ∧ pyHasKey dmap n = false := by
  simp [filesToDelete, List.mem_filter]

theorem mem_filesToProcess_iff (info : List (String × Option String))
    (dmap : List (String × DriveFile)) (hnd : (keysOf dmap).Nodup) (n : String) :
    n ∈ filesToProcess info dmap ↔
      ∃ f, pyGet dmap n = some f ∧ needsProcessing info n f = true := by
  rw [filesToProcess, List.mem_filterMap]
  constructor
  · rintro ⟨⟨k, f⟩, hmem, heq⟩
    by_cases hc : needsProcessing info k f = true
    · rw [if_pos hc] at heq
      injection heq with heq
      subst heq
      exact ⟨f, (mem_iff_pyGet_of_nodup dmap k f hnd).1 hmem, hc⟩
    · rw [if_neg hc] at heq
      exact absurd heq (by simp)
  · rintro ⟨f, hget, hc⟩
    exact ⟨(n, f), (mem_iff_pyGet_of_nodup dmap n f hnd).2 hget, by rw [if_pos hc]⟩

theorem mem_modifiedFiles_iff (info : List (String × Option String))
    (dmap : List (String × DriveFile)) (hnd : (keysOf dmap).Nodup) (n : String) :
    n ∈ modifiedFiles info dmap ↔
      ∃ f, pyGet dmap n = some f ∧ needsProcessing info n f = true ∧
        stampTruthy (dbStamp info n) = true := by
  rw [modifiedFiles, List.mem_filterMap]
  constructor
  · rintro ⟨⟨k, f⟩, hmem, heq⟩
    by_cases hc : (needsProcessing info k f && stampTruthy (dbStamp info k)) = true
    · rw [if_pos hc] at heq
      injection heq with heq
      subst heq
      rw [Bool.and_eq_true] at hc
      exact ⟨f, (mem_iff_pyGet_of_nodup dmap k f hnd).1 hmem, hc.1, hc.2⟩
    · rw [if_neg hc] at heq
      exact absurd heq (by simp)
  · rintro ⟨f, hget, hc1, hc2⟩
    exact ⟨(n, f), (mem_iff_pyGet_of_nodup dmap n f hnd).2 hget,
      by rw [if_pos (by rw [Bool.and_eq_true]; exact ⟨hc1, hc2⟩)]⟩

theorem modifiedFiles_subset (info : List (String × Option String))
    (dmap : List (String × DriveFile)) (n : String)
    (h : n ∈ modifiedFiles info dmap) : n ∈ filesToProcess info dmap := by
  rw [modifiedFiles, List.mem_filterMap] at h
  rw [filesToProcess, List.mem_filterMap]
  obtain ⟨⟨k, f⟩, hmem, heq⟩ := h
  by_cases hc : (needsProcessing info k f && stampTruthy (dbStamp info k)) = true
  · rw [if_pos hc] at heq
    rw [Bool.and_eq_true] at hc
    exact ⟨(k, f), hmem, by rw [if_pos hc.1]; exact heq⟩
  · rw [if_neg hc] at heq
    exact absurd heq (by simp)

theorem modifiedFiles_eq_nil (info : List (String × Option String))
    (dmap : List (String × DriveFile)) (hp : filesToProcess info dmap = []) :
    modifiedFiles info dmap = [] := by
  rw [List.eq_nil_iff_forall_not_mem]
  intro n hn
  have := modifiedFiles_subset info dmap n hn
  rw [hp] at this
  exact absurd this (List.not_mem_nil n)

theorem needsProcessing_iff (info : List (String × Option String)) (n : String)
    (f : DriveFile) :
    needsProcessing info n f = true ↔
      (dbStamp info n = none ∨ dbStamp info n = some "" ∨
        ∃ s, dbStamp info n = some s ∧ f.modifiedTime ≠ some s) := by
  unfold needsProcessing
  cases h : dbStamp info n with
  | none => simp
  | some s =>
    by_cases hemp : s = ""
    · subst hemp
      simp
    · simp only [if_neg hemp, bne_iff_ne, ne_eq, Option.some.injEq]
      constructor
      · intro hne
        exact Or.inr (Or.inr ⟨s, rfl, hne⟩)
      · rintro (hc | hc | ⟨s2, hs2, hne⟩)
        · exact absurd hc (by simp)
        · exact absurd hc (by simp [hemp])
        · subst hs2
          exact hne

/-- The events of one sync run split into a delete phase (stale and modified
files) followed by a processing phase, with the membership origins of each
event. -/
theorem runSync_events_split (store : List Rec) (files : List DriveFile)
    (o : Oracle) (ext : String → Option (List Char)) :
    ∃ ds ps, (runSync store files o ext).events = ds ++ ps ∧
      (∀ e ∈ ds, ∃ n, e = SyncEvent.deleteFile n ∧
        (n ∈ filesToDelete (get_indexed_files_info store) (driveFilesMap files) ∨
         n ∈ modifiedFiles (get_indexed_files_info store) (driveFilesMap files))) ∧
      (∀ e ∈ ps, ∃ n, e = SyncEvent.processFile n ∧
        n ∈ filesToProcess (get_indexed_files_info store) (driveFilesMap files)) ∧
      (∀ n, n ∈ modifiedFiles (get_indexed_files_info store) (driveFilesMap files) →
        SyncEvent.deleteFile n ∈ ds ∧ SyncEvent.processFile n ∈ ps) := by
  by_cases hc : ((filesToProcess (get_indexed_files_info store)
        (driveFilesMap files)).isEmpty
      && (filesToDelete (get_indexed_files_info store)
        (driveFilesMap files)).isEmpty) = true
  · have hp : filesToProcess (get_indexed_files_info store) (driveFilesMap files) = [] := by
      rw [Bool.and_eq_true, List.isEmpty_iff, List.isEmpty_iff] at hc
      exact hc.1
    have hm := modifiedFiles_eq_nil _ _ hp
    refine ⟨(filesToDelete (get_indexed_files_info store)
        (driveFilesMap files)).map SyncEvent.deleteFile
      ++ (modifiedFiles (get_indexed_files_info store)
        (driveFilesMap files)).map SyncEvent.deleteFile, [], ?_, ?_, by simp, ?_⟩
    · simp [runSync, hc]
    · intro e he
      rcases List.mem_append.1 he with h1 | h1 <;>
        obtain ⟨n, hn, rfl⟩ := List.mem_map.1 h1
      · exact ⟨n, rfl, Or.inl hn⟩
      · exact ⟨n, rfl, Or.inr hn⟩
    · intro n hn
      rw [hm] at hn
      exact absurd hn (List.not_mem_nil n)
  · refine ⟨(filesToDelete (get_indexed_files_info store)
        (driveFilesMap files)).map SyncEvent.deleteFile
      ++ (modifiedFiles (get_indexed_files_info store)
        (driveFilesMap files)).map SyncEvent.deleteFile,
      (filesToProcess (get_indexed_files_info store)
        (driveFilesMap files)).map SyncEvent.processFile, ?_, ?_, ?_, ?_⟩
    · simp [runSync, hc]
    · intro e he
      rcases List.mem_append.1 he with h1 | h1 <;>
        obtain ⟨n, hn, rfl⟩ := List.mem_map.1 h1
      · exact ⟨n, rfl, Or.inl hn⟩
      · exact ⟨n, rfl, Or.inr hn⟩
    · intro e he
      obtain ⟨n, hn, rfl⟩ := List.mem_map.1 he
      exact ⟨n, rfl, hn⟩
    · intro n hn
      exact ⟨List.mem_append_right _ (List.mem_map_of_mem SyncEvent.deleteFile hn),
        List.mem_map_of_mem SyncEvent.processFile
          (modifiedFiles_subset _ _ n hn)⟩

/-- Every provider call of a sync run belongs to the worker of some
to-process file, and carries that file's name. -/
theorem runSync_calls_tagged (store : List Rec) (files : List DriveFile)
    (o : Oracle) (ext : String → Option (List Char)) :
    ∀ c ∈ (runSync store files o ext).calls,
      ∃ m, m ∈ filesToProcess (get_indexed_files_info store) (driveFilesMap files)
        ∧ ProviderCall.file c = m := by
  by_cases hc : ((filesToProcess (get_indexed_files_info store)
        (driveFilesMap files)).isEmpty
      && (filesToDelete (get_indexed_files_info store)
        (driveFilesMap files)).isEmpty) = true
  · simp [runSync, hc]
  · intro c hcall
    simp only [runSync, hc, Bool.false_eq_true, if_false] at hcall
    rw [List.mem_flatMap] at hcall
    obtain ⟨m, hm, hcm⟩ := hcall
    refine ⟨m, hm, ?_⟩
    revert hcm
    cases ext m with
    | none => intro hcm; exact absurd hcm (List.not_mem_nil c)
    | some text =>
      cases pyGet (driveFilesMap files) m with
      | none => intro hcm; exact absurd hcm (List.not_mem_nil c)
      | some f =>
        intro hcm
        rcases List.mem_cons.1 hcm with rfl | h1
        · rfl
        · obtain ⟨ck, -, rfl⟩ := List.mem_map.1 h1
          rfl

/-- The indexed state of the spec's diff example: one chunk of `a` stamped
`t1` and one chunk of `b` stamped `t2`. -/
def exampleStore : List Rec :=
  [⟨"A doc".data, build_wine_metadata "a" (some "t1") "" [], []⟩,
   ⟨"B doc".data, build_wine_metadata "b" (some "t2") "" [], []⟩]

/-- The remote listing of the spec's diff example: `a` still stamped `t1`,
a new file `c` stamped `t3`, and `b` gone. -/
def exampleFiles : List DriveFile :=
  [⟨some "a", some "t1", none⟩, ⟨some "c", some "t3", none⟩]

/-- Text extraction for the example: every processed file holds a short text. -/
def exampleExtract : String → Option (List Char) := fun _ => some "vino tinto".data

/-- C1.  The sync diff: `toDelete` is exactly the indexed names absent from
the remote listing; `toProcess` is exactly the remote names whose recorded
timestamp is missing (Python-falsy) or differs from the remote timestamp; in
every run the delete events (stale and modified files) precede all
processing, and every modified name is deleted before it is reprocessed; a
name whose timestamps match is neither deleted nor reprocessed, appears in
no event, and receives zero provider (embedding or extraction) calls.  On
the spec's example — indexed `{a: t1, b: t2}`, remote `{a: t1, c: t3}` — the
run deletes `b`, processes `c`, issues only calls tagged `c`, keeps `a`'s
records intact and ends with no `b` records. -/
theorem sync_diff_correct :
    (∀ (store : List Rec) (files : List DriveFile) (n : String),
      n ∈ filesToDelete (get_indexed_files_info store) (driveFilesMap files) ↔
        n ∈ keysOf (get_indexed_files_info store) ∧
          pyHasKey (driveFilesMap files) n = false) ∧
    (∀ (store : List Rec) (files : List DriveFile) (n : String),
      n ∈ filesToProcess (get_indexed_files_info store) (driveFilesMap files) ↔
        ∃ f, pyGet (driveFilesMap files) n = some f ∧
          (dbStamp (get_indexed_files_info store) n = none ∨
           dbStamp (get_indexed_files_info store) n = some "" ∨
           ∃ s, dbStamp (get_indexed_files_info store) n = some s ∧
             f.modifiedTime ≠ some s)) ∧
    (∀ (store : List Rec) (files : List DriveFile) (o : Oracle)
        (ext : String → Option (List Char)),
      ∃ ds ps, (runSync store files o ext).events = ds ++ ps ∧
        (∀ e ∈ ds, ∃ n, e = SyncEvent.deleteFile n) ∧
        (∀ e ∈ ps, ∃ n, e = SyncEvent.processFile n) ∧
        (∀ n, n ∈ modifiedFiles (get_indexed_files_info store) (driveFilesMap files) →
          SyncEvent.deleteFile n ∈ ds ∧ SyncEvent.processFile n ∈ ps)) ∧
    (∀ (store : List Rec) (files : List DriveFile) (o : Oracle)
        (ext : String → Option (List Char)) (n : String) (f : DriveFile),
      pyGet (driveFilesMap files) n = some f →
      (∃ s, dbStamp (get_indexed_files_info store) n = some s ∧ s ≠ "" ∧
        f.modifiedTime = some s) →
      n ∉ filesToDelete (get_indexed_files_info store) (driveFilesMap files) ∧
      n ∉ filesToProcess (get_indexed_files_info store) (driveFilesMap files) ∧
      (∀ e ∈ (runSync store files o ext).events,
        e ≠ SyncEvent.deleteFile n ∧ e ≠ SyncEvent.processFile n) ∧
      (∀ c ∈ (runSync store files o ext).calls, ProviderCall.file c ≠ n)) ∧
    (filesToDelete (get_indexed_files_info exampleStore) (driveFilesMap exampleFiles)
        = ["b"] ∧
     filesToProcess (get_indexed_files_info exampleStore) (driveFilesMap exampleFiles)
        = ["c"] ∧
     (runSync exampleStore exampleFiles stubOracle exampleExtract).events
        = [SyncEvent.deleteFile "b", SyncEvent.processFile "c"] ∧
     (runSync exampleStore exampleFiles stubOracle exampleExtract).calls
        = [ProviderCall.llmExtract "c", ProviderCall.embedChunk "c"] ∧
     (runSync exampleStore exampleFiles stubOracle exampleExtract).store.filter
         (fun r => recFuente r == some "a")
        = exampleStore.filter (fun r => recFuente r == some "a") ∧
     (runSync exampleStore exampleFiles stubOracle exampleExtract).store.filter
         (fun r => recFuente r == some "b") = []) := by
  have hproc_iff : ∀ (store : List Rec) (files : List DriveFile) (n : String),
      n ∈ filesToProcess (get_indexed_files_info store) (driveFilesMap files) ↔
        ∃ f, pyGet (driveFilesMap files) n = some f ∧
          (dbStamp (get_indexed_files_info store) n = none ∨
           dbStamp (get_indexed_files_info store) n = some "" ∨
           ∃ s, dbStamp (get_indexed_files_info store) n = some s ∧
             f.modifiedTime ≠ some s) := by
    intro store files n
    rw [mem_filesToProcess_iff _ _ (nodup_keys_driveFilesMap files) n]
    constructor
    · rintro ⟨f, hget, hc⟩
      exact ⟨f, hget, (needsProcessing_iff _ n f).1 hc⟩
    · rintro ⟨f, hget, hc⟩
      exact ⟨f, hget, (needsProcessing_iff _ n f).2 hc⟩
  refine ⟨fun store files n => mem_filesToDelete_iff _ _ n, hproc_iff, ?_, ?_,
    rfl, rfl, rfl, rfl, rfl, rfl⟩
  · intro store files o ext
    obtain ⟨ds, ps, hev, hds, hps, hmod⟩ := runSync_events_split store files o ext
    exact ⟨ds, ps, hev, fun e he => ⟨(hds e he).choose, (hds e he).choose_spec.1⟩,
      fun e he => ⟨(hps e he).choose, (hps e he).choose_spec.1⟩, hmod⟩
  · intro store files o ext n f hget hmatch
    obtain ⟨s, hs, hsne, hmt⟩ := hmatch
    have hnotdel : n ∉ filesToDelete (get_indexed_files_info store)
        (driveFilesMap files) := by
      intro hmem
      have h2 := (mem_filesToDelete_iff _ _ n).1 hmem
      rw [pyHasKey, hget] at h2
      exact absurd h2.2 (by simp)
    have hnotproc : n ∉ filesToProcess (get_indexed_files_info store)
        (driveFilesMap files) := by
      intro hmem
      obtain ⟨f2, hget2, hc⟩ := (hproc_iff store files n).1 hmem
      rw [hget] at hget2
      injection hget2 with hget2
      subst hget2
      rcases hc with hc | hc | ⟨s2, hs2, hne2⟩
      · rw [hs] at hc; exact absurd hc (by simp)
      · rw [hs] at hc
        injection hc with hc
        exact hsne hc
      · rw [hs] at hs2
        injection hs2 with hs2
        subst hs2
        exact hne2 hmt
    have hnotmod : n ∉ modifiedFiles (get_indexed_files_info store)
        (driveFilesMap files) :=
      fun hmem => hnotproc (modifiedFiles_subset _ _ n hmem)
    refine ⟨hnotdel, hnotproc, ?_, ?_⟩
    · intro e he
      obtain ⟨ds, ps, hev, hds, hps, -⟩ := runSync_events_split store files o ext
      rw [hev] at he
      rcases List.mem_append.1 he with h1 | h1
      · obtain ⟨n2, rfl, horig⟩ := hds e h1
        refine ⟨?_, by simp⟩
        intro hcontra
        injection hcontra with hcontra
        subst hcontra
        rcases horig with horig | horig
        · exact hnotdel horig
        · exact hnotmod horig
      · obtain ⟨n2, rfl, horig⟩ := hps e h1
        refine ⟨by simp, ?_⟩
        intro hcontra
        injection hcontra with hcontra
        subst hcontra
        exact hnotproc horig
    · intro c hc
      obtain ⟨m, hm, hcm⟩ := runSync_calls_tagged store files o ext c hc
      rw [hcm]
      intro hcontra
      subst hcontra
      exact hnotproc hm

/-- Witness for C1: on the concrete example, the timestamp-matched name `a`
is selected neither for deletion nor for reprocessing. -/
theorem sync_diff_correct_witness :
    "a" ∉ filesToDelete (get_indexed_files_info exampleStore)
        (driveFilesMap exampleFiles) ∧
    "a" ∉ filesToProcess (get_indexed_files_info exampleStore)
        (driveFilesMap exampleFiles) :=
  have h := sync_diff_correct.2.2.2.1 exampleStore exampleFiles stubOracle
    exampleExtract "a" ⟨some "a", some "t1", none⟩ rfl ⟨"t1", rfl, by decide, rfl⟩
  ⟨h.1, h.2.1⟩

/-- C2.  When the remote `{name: lastModified}` map coincides with the
index's recorded map (every drive stamp being a real, non-empty string, as
the Drive listing guarantees): both diff sets are empty, the run returns the
no-change status, performs no deletion, insertion, event or provider call,
leaves the store untouched, and replaying the sync yields the identical
result on the identical store. -/
theorem sync_noop_when_unchanged (store : List Rec) (files : List DriveFile)
    (o : Oracle) (ext : String → Option (List Char))
    (h1 : ∀ n, pyGet (get_indexed_files_info store) n = pyGet (remoteStamps files) n)
    (h2 : ∀ n v, pyGet (remoteStamps files) n = some v → ∃ t, v = some t ∧ t ≠ "") :
    filesToDelete (get_indexed_files_info store) (driveFilesMap files) = [] ∧
    filesToProcess (get_indexed_files_info store) (driveFilesMap files) = [] ∧
    runSync store files o ext
      = ⟨store, [], [], .noChanges (get_indexed_files_info store).length⟩ ∧
    runSync (runSync store files o ext).store files o ext
      = runSync store files o ext := by
  have hdel : filesToDelete (get_indexed_files_info store) (driveFilesMap files) = [] := by
    rw [filesToDelete, List.filter_eq_nil_iff]
    intro n hn
    have hsome : (pyGet (get_indexed_files_info store) n).isSome :=
      (pyGet_isSome_iff_mem_keys _ n).2 hn
    cases hv : pyGet (get_indexed_files_info store) n with
    | none => rw [hv] at hsome; simp at hsome
    | some v =>
      have hr : pyGet (remoteStamps files) n = some v := by rw [← h1 n]; exact hv
      rw [pyGet_remoteStamps] at hr
      have : (pyGet (driveFilesMap files) n).isSome := by
        cases hd : pyGet (driveFilesMap files) n with
        | none => rw [hd] at hr; simp at hr
        | some f => simp
      simp [pyHasKey, this]
  have hproc : filesToProcess (get_indexed_files_info store) (driveFilesMap files) = [] := by
    rw [filesToProcess, List.filterMap_eq_nil_iff]
    rintro ⟨n, f⟩ hmem
    have hget : pyGet (driveFilesMap files) n = some f :=
      (mem_iff_pyGet_of_nodup _ n f (nodup_keys_driveFilesMap files)).1 hmem
    have hr : pyGet (remoteStamps files) n = some f.modifiedTime := by
      rw [pyGet_remoteStamps, hget]
      rfl
    obtain ⟨t, ht, htne⟩ := h2 n f.modifiedTime hr
    have hi : pyGet (get_indexed_files_info store) n = some (some t) := by
      rw [h1 n, hr, ht]
    have hdb : dbStamp (get_indexed_files_info store) n = some t := by
      rw [dbStamp, hi]
      rfl
    have hneed : needsProcessing (get_indexed_files_info store) n f = false := by
      rw [needsProcessing, hdb]
      simp only [if_neg htne]
      rw [ht]
      simp
    simp only [hneed, Bool.false_eq_true, if_false]
  have hmod := modifiedFiles_eq_nil _ _ hproc
  have hrun : runSync store files o ext
      = ⟨store, [], [], .noChanges (get_indexed_files_info store).length⟩ := by
    simp [runSync, hdel, hproc, hmod]
  refine ⟨hdel, hproc, hrun, ?_⟩
  rw [hrun]
  exact hrun

/-- The remote listing matching `recW`'s indexed state. -/
def filesW : List DriveFile := [⟨some "f.txt", some "t1", none⟩]

/-- Witness for C2: a store and listing with identical stamp maps yield the
no-change result. -/
theorem sync_noop_when_unchanged_witness :
    runSync [recW] filesW stubOracle (fun _ => none)
      = ⟨[recW], [], [], .noChanges 1⟩ := by
  have e1 : get_indexed_files_info [recW] = [("f.txt", some "t1")] := rfl
  have e2 : remoteStamps filesW = [("f.txt", some "t1")] := rfl
  have h := sync_noop_when_unchanged [recW] filesW stubOracle (fun _ => none)
    (fun n => by rw [e1, e2])
    (fun n v hv => by
      rw [e2] at hv
      by_cases hn : "f.txt" = n
      · have : some (some "t1") = some v := by
          rw [← hv, ← hn]
          rfl
        injection this with this
        exact ⟨"t1", this.symm, by decide⟩
      · rw [show pyGet [("f.txt", (some "t1" : Option String))] n = none from by
          simp [pyGet, hn]] at hv
        exact absurd hv (by simp))
  exact h.2.2.1

/-! ## Query-engine lemmas -/

/-- What a completed tool loop guarantees: the transcript only grows, every
weather-named call's tool-role result message is in the final transcript, and
the `used_weather` flag is set exactly when some call names the weather
tool. -/
theorem askToolLoop_ok_spec (o : Oracle) :
    ∀ (tcs : List ToolCall) (msgs : List Msg) (used : Bool)
      (msgs1 : List Msg) (used1 : Bool),
      askToolLoop o tcs msgs used = .ok (msgs1, used1) →
      (∀ x ∈ msgs, x ∈ msgs1) ∧
      (∀ tc ∈ tcs, tc.name = "get_weather" →
        ∀ d, o.parseJson tc.args = .ok (.jobj d) →
          Msg.tool tc.id tc.name (o.weather (pyGet d "location")) ∈ msgs1) ∧
      used1 = (used || tcs.any fun tc => tc.name == "get_weather") := by
  intro tcs
  induction tcs with
  | nil =>
    intro msgs used msgs1 used1 h
    rw [askToolLoop] at h
    injection h with h
    rw [Prod.mk.injEq] at h
    obtain ⟨rfl, rfl⟩ := h
    exact ⟨fun x hx => hx, by simp, by simp⟩
  | cons tc rest ih =>
    intro msgs used msgs1 used1 h
    rw [askToolLoop] at h
    cases hp : o.parseJson tc.args with
    | error e =>
      rw [hp] at h
      exact absurd h (by simp)
    | ok j =>
      rw [hp] at h
      cases j with
      | jobj d =>
        simp only [] at h
        by_cases hn : tc.name = "get_weather"
        · rw [if_pos hn] at h
          obtain ⟨hsub, hmem, hused⟩ := ih _ _ _ _ h
          refine ⟨fun x hx => hsub x (List.mem_append_left _ hx), ?_, ?_⟩
          · intro tc2 htc2 hn2 d2 hp2
            rcases List.mem_cons.1 htc2 with rfl | htc2
            · rw [hp] at hp2
              injection hp2 with hp2
              injection hp2 with hp2
              subst hp2
              exact hsub _ (List.mem_append_right _ (List.mem_singleton.2 rfl))
            · exact hmem tc2 htc2 hn2 d2 hp2
          · rw [hused]
            simp [hn]
        · rw [if_neg hn] at h
          obtain ⟨hsub, hmem, hused⟩ := ih _ _ _ _ h
          refine ⟨hsub, ?_, ?_⟩
          · intro tc2 htc2 hn2 d2 hp2
            rcases List.mem_cons.1 htc2 with rfl | htc2
            · exact absurd hn2 hn
            · exact hmem tc2 htc2 hn2 d2 hp2
          · rw [hused]
            have : (tc.name == "get_weather") = false := by
              simpa using hn
            simp [this]
      | jnull => exact absurd h (by simp)
      | jbool b => exact absurd h (by simp)
      | jnum q => exact absurd h (by simp)
      | jstr s2 => exact absurd h (by simp)
      | jarr es => exact absurd h (by simp)

/-- C5.  The query engine's two modes: with no tool call the first
completion's content is the answer, attributed to the distinct source values
collected from the retrieval; when the model elects the weather tool, the
tool result is appended to the transcript as a tool-role message, a second
completion is requested with the full transcript, its content becomes the
answer, and the sources list is empty — whatever the retrieved context
was. -/
theorem query_tool_roundtrip :
    ∀ (o : Oracle) (query : List Char) (rm : ChatMsg),
      o.chatWithTools (askBotMessages query (askBotRetrieval o query).1) = .ok rm →
      ((rm.tool_calls = [] →
        ask_bot o query = ⟨rm.content, (askBotRetrieval o query).2⟩) ∧
      (∀ (msgs1 : List Msg) (used : Bool),
        askToolLoop o rm.tool_calls
            (askBotMessages query (askBotRetrieval o query).1 ++ [.assistant rm]) false
          = .ok (msgs1, used) →
        rm.tool_calls ≠ [] →
        (ask_bot o query = (match o.chatPlain msgs1 with
          | .error e => errAnswer e
          | .ok m2 => ⟨m2.content, if used then [] else (askBotRetrieval o query).2⟩)) ∧
        (used = true → (ask_bot o query).sources = []) ∧
        (∀ tc ∈ rm.tool_calls, tc.name = "get_weather" →
          ∀ d, o.parseJson tc.args = .ok (.jobj d) →
            Msg.tool tc.id tc.name (o.weather (pyGet d "location")) ∈ msgs1) ∧
        (used = true ↔ ∃ tc ∈ rm.tool_calls, tc.name = "get_weather"))) := by
  intro o query rm hrm
  have hbot : ask_bot o query
      = askBotAfterFirst o (askBotMessages query (askBotRetrieval o query).1)
          (askBotRetrieval o query).2 rm := by
    simp only [ask_bot, hrm]
  constructor
  · intro hempty
    rw [hbot, askBotAfterFirst, if_pos (by simp [hempty])]
  · intro msgs1 used hloop hne
    obtain ⟨hsub, hmem, hused⟩ := askToolLoop_ok_spec o rm.tool_calls _ false _ _ hloop
    have hafter : ask_bot o query = (match o.chatPlain msgs1 with
        | .error e => errAnswer e
        | .ok m2 => ⟨m2.content, if used then [] else (askBotRetrieval o query).2⟩) := by
      rw [hbot, askBotAfterFirst, if_neg (by simp [hne]), hloop]
    refine ⟨hafter, ?_, hmem, ?_⟩
    · intro huse
      rw [hafter]
      cases o.chatPlain msgs1 with
      | error e => rfl
      | ok m2 => simp [huse]
    · rw [hused]
      simp

/-- An oracle whose model elects the weather tool on a non-empty retrieval. -/
def toolOracle : Oracle where
  embed := fun _ => .ok [1]
  search := fun _ => .ok [⟨"ficha de malbec".data,
    .jobj [("documental", .jobj [("fuente_nombre", .jstr "malbec.pdf")])]⟩]
  chatExtract := fun _ => .error "offline"
  parseJson := fun _ => .ok (.jobj [("location", .jstr "Oliveros")])
  chatWithTools := fun _ => .ok ⟨none, [⟨"call1", "get_weather", "args".data⟩]⟩
  chatPlain := fun _ => .ok ⟨some "soleado".data, []⟩
  weather := fun _ => "soleado, 25 C".data

/-- Witness for C5: the weather round trip empties the sources even though
the retrieval collected a source. -/
theorem query_tool_roundtrip_witness :
    (ask_bot toolOracle "clima en Oliveros".data).sources = [] ∧
    (askBotRetrieval toolOracle "clima en Oliveros".data).2
      = [some (.jstr "malbec.pdf")] := by
  have h := (query_tool_roundtrip toolOracle "clima en Oliveros".data
    ⟨none, [⟨"call1", "get_weather", "args".data⟩]⟩ rfl).2 _ true rfl (by simp)
  exact ⟨h.2.1 rfl, rfl⟩

/-- C6.  Error degradation of the query path: a raised provider error while
embedding the query or searching the index is caught, leaving the retrieved
context and collected sources empty while the completion still runs; a
raised provider error during the first or the second completion produces the
explicit `Error communicating with OpenAI: ...` answer with an empty sources
list.  `ask_bot` is a total function of its oracles — every failure case
yields a returned `Answer`, never a propagated exception. -/
theorem query_error_degradation :
    (∀ (o : Oracle) (query : List Char) (e : String),
      get_embedding o query = .error e →
      askBotRetrieval o query = ([], []) ∧
      ask_bot o query = (match o.chatWithTools (askBotMessages query []) with
        | .error e2 => errAnswer e2
        | .ok rm => askBotAfterFirst o (askBotMessages query []) [] rm)) ∧
    (∀ (o : Oracle) (query : List Char) (emb : List ℚ) (e : String),
      get_embedding o query = .ok emb → o.search emb = .error e →
      askBotRetrieval o query = ([], []) ∧
      ask_bot o query = (match o.chatWithTools (askBotMessages query []) with
        | .error e2 => errAnswer e2
        | .ok rm => askBotAfterFirst o (askBotMessages query []) [] rm)) ∧
    (∀ (o : Oracle) (query : List Char) (e : String),
      o.chatWithTools (askBotMessages query (askBotRetrieval o query).1) = .error e →
      ask_bot o query = errAnswer e ∧
      (ask_bot o query).sources = [] ∧
      (ask_bot o query).answer
        = some ("Error communicating with OpenAI: ".data ++ e.data)) ∧
    (∀ (o : Oracle) (query : List Char) (rm : ChatMsg) (msgs1 : List Msg)
        (used : Bool) (e : String),
      o.chatWithTools (askBotMessages query (askBotRetrieval o query).1) = .ok rm →
      rm.tool_calls ≠ [] →
      askToolLoop o rm.tool_calls
          (askBotMessages query (askBotRetrieval o query).1 ++ [.assistant rm]) false
        = .ok (msgs1, used) →
      o.chatPlain msgs1 = .error e →
      ask_bot o query = errAnswer e ∧ (ask_bot o query).sources = []) := by
  refine ⟨?_, ?_, ?_, ?_⟩
  · intro o query e h
    have hretr : askBotRetrieval o query = ([], []) := by
      simp [askBotRetrieval, h]
    refine ⟨hretr, ?_⟩
    simp only [ask_bot, hretr]
  · intro o query emb e hemb hsea
    have hretr : askBotRetrieval o query = ([], []) := by
      simp [askBotRetrieval, hemb, hsea]
    refine ⟨hretr, ?_⟩
    simp only [ask_bot, hretr]
  · intro o query e h
    have : ask_bot o query = errAnswer e := by
      simp only [ask_bot, h]
    exact ⟨this, by rw [this]; rfl, by rw [this]; rfl⟩
  · intro o query rm msgs1 used e hrm hne hloop hplain
    have : ask_bot o query = errAnswer e := by
      simp only [ask_bot, hrm, askBotAfterFirst]
      rw [if_neg (by simp [hne])]
      simp only [hloop, hplain]
    exact ⟨this, by rw [this]; rfl⟩

/-- Witness for C6: with the all-failing provider the query degrades to the
explicit error answer with no sources. -/
theorem query_error_degradation_witness :
    ask_bot stubOracle "hola".data = errAnswer "offline" ∧
    (ask_bot stubOracle "hola".data).sources = [] :=
  have h := query_error_degradation.2.2.1 stubOracle "hola".data "offline" rfl
  ⟨h.1, h.2.1⟩

end BotAnalitica
